import Mathlib

/-!
# Volumetric fusion utilities (`src/caffe/layers/suncg_fusion.hpp`)

A shallow embedding of the depth decoder `ReadDepthImage`, the run-length label
decoder `ReadVoxLabel`, the TSDF integration kernel `Integrate` and the bulk fill
`GPU_set_value`, together with the properties of them that the specification
states.

Modelling conventions.

* `Dtype` (the floating-point storage type) is modelled by exact rationals;
  rounding error, infinities and NaN are outside the model.  The library
  function `sqrtf` is a parameter of the kernel.  A quotient by zero is `0`
  in the rationals and an infinity or NaN in the source, so the update rule
  is stated for a positive margin and a non-zero `weight_old + 1`.  Where
  rounding changes a property in kind, `binary32` and `fuseBinary32` round
  each operation of the running-mean update to single precision.
* A device or host buffer reached through a pointer is a total function from
  the `int` index to the stored value; a store is a pointwise update.
* C `int` values are mathematical integers (signed overflow is undefined
  behaviour in the source and is not modelled); `unsigned short`,
  `unsigned int` and `size_t` arithmetic is reduced modulo `2^16`, `2^32` and
  `2^64` explicitly.
* A kernel launch runs its threads one after the other; the theorems about a
  launch assume a configuration in which no two threads write the same cell.
-/

namespace SuncgFusion

/-! ## Numeric conversions -/

/-- The storage type of the kernels, in exact arithmetic. -/
abbrev Dtype := ℚ

/-- Conversion of a floating-point value to `int`: truncation toward zero. -/
def toInt (q : Dtype) : Int :=
  if 0 ≤ q then ⌊q⌋ else ⌈q⌉

/-- The C function `roundf`: nearest integer, halfway cases away from zero. -/
def roundf (q : Dtype) : Int :=
  if 0 ≤ q then ⌊q + 1 / 2⌋ else ⌈q - 1 / 2⌉

/-- A store `buf[i] = v` into a buffer. -/
def store (buf : Int → Dtype) (i : Int) (v : Dtype) : Int → Dtype :=
  fun j => if j = i then v else buf j

/-- A buffer whose first cells hold the given list and whose other cells hold zero. -/
def ofList (l : List Dtype) : Int → Dtype :=
  fun j => if 0 ≤ j then l.getD j.toNat 0 else 0

/-! ## The integration kernel -/

/-- The three output buffers of `Integrate`; `vox_height` may be `NULL`. -/
structure Volume where
  vox_tsdf : Int → Dtype
  vox_weight : Int → Dtype
  vox_height : Option (Int → Dtype)

/-- The assignment `int frame_width = cam_info[0]`. -/
def frame_width (cam_info : Int → Dtype) : Int := toInt (cam_info 0)

/-- The assignment `int frame_height = cam_info[1]`. -/
def frame_height (cam_info : Int → Dtype) : Int := toInt (cam_info 1)

/-- The intrinsics `cam_K[i] = cam_info[i + 2]`. -/
def cam_K (cam_info : Int → Dtype) (i : Int) : Dtype := cam_info (i + 2)

/-- The pose `cam_pose[i] = cam_info[i + 11]`. -/
def cam_pose (cam_info : Int → Dtype) (i : Int) : Dtype := cam_info (i + 11)

/-- The voxel edge `vox_unit = vox_info[0]`. -/
def vox_unit (vox_info : Int → Dtype) : Dtype := vox_info 0

/-- The truncation margin `vox_margin = vox_info[1]`. -/
def vox_margin (vox_info : Int → Dtype) : Dtype := vox_info 1

/-- The grid size `vox_size[i] = vox_info[i + 2]`, converted to `int`. -/
def vox_size (vox_info : Int → Dtype) (i : Int) : Int := toInt (vox_info (i + 2))

/-- The grid origin `vox_origin[i] = vox_info[i + 5]`. -/
def vox_origin (vox_info : Int → Dtype) (i : Int) : Dtype := vox_info (i + 5)

/-- The flattened index `vox_idx = z * vox_size[0] * vox_size[1] + y * vox_size[0] + x`. -/
def vox_idx (vox_info : Int → Dtype) (z y x : Int) : Int :=
  z * vox_size vox_info 0 * vox_size vox_info 1 + y * vox_size vox_info 0 + x

/-- The world point `point_base` of a voxel as first computed (axes permuted XYZ -> YZX). -/
def point_base (vox_info : Int → Dtype) (z y x : Int) (i : Fin 3) : Dtype :=
  match i with
  | 0 => (z : Dtype) * vox_unit vox_info + vox_origin vox_info 0
  | 1 => (x : Dtype) * vox_unit vox_info + vox_origin vox_info 1
  | 2 => (y : Dtype) * vox_unit vox_info + vox_origin vox_info 2

/-- The value stored in `vox_height`: `fmin(1, fmax((point_base[2] + 0.2) / 2.5, 0))`. -/
def height_val (vox_info : Int → Dtype) (z y x : Int) : Dtype :=
  min 1 (max ((point_base vox_info z y x 2 + 2 / 10) / (25 / 10)) 0)

/-- The point after `point_base[i] = point_base[i] - cam_pose[i * 4 + 3]`. -/
def point_rel (cam_info vox_info : Int → Dtype) (z y x : Int) (i : Fin 3) : Dtype :=
  match i with
  | 0 => point_base vox_info z y x 0 - cam_pose cam_info (0 * 4 + 3)
  | 1 => point_base vox_info z y x 1 - cam_pose cam_info (1 * 4 + 3)
  | 2 => point_base vox_info z y x 2 - cam_pose cam_info (2 * 4 + 3)

/-- The point `point_cam` in camera coordinates. -/
def point_cam (cam_info vox_info : Int → Dtype) (z y x : Int) (i : Fin 3) : Dtype :=
  match i with
  | 0 => cam_pose cam_info (0 * 4 + 0) * point_rel cam_info vox_info z y x 0
          + cam_pose cam_info (1 * 4 + 0) * point_rel cam_info vox_info z y x 1
          + cam_pose cam_info (2 * 4 + 0) * point_rel cam_info vox_info z y x 2
  | 1 => cam_pose cam_info (0 * 4 + 1) * point_rel cam_info vox_info z y x 0
          + cam_pose cam_info (1 * 4 + 1) * point_rel cam_info vox_info z y x 1
          + cam_pose cam_info (2 * 4 + 1) * point_rel cam_info vox_info z y x 2
  | 2 => cam_pose cam_info (0 * 4 + 2) * point_rel cam_info vox_info z y x 0
          + cam_pose cam_info (1 * 4 + 2) * point_rel cam_info vox_info z y x 1
          + cam_pose cam_info (2 * 4 + 2) * point_rel cam_info vox_info z y x 2

/-- The column `pixel_x = roundf(cam_K[0] * (point_cam[0] / point_cam[2]) + cam_K[2])`. -/
def pixel_x (cam_info vox_info : Int → Dtype) (z y x : Int) : Int :=
  roundf (cam_K cam_info 0
    * (point_cam cam_info vox_info z y x 0 / point_cam cam_info vox_info z y x 2)
    + cam_K cam_info 2)

/-- The row `pixel_y = roundf(cam_K[4] * (point_cam[1] / point_cam[2]) + cam_K[5])`. -/
def pixel_y (cam_info vox_info : Int → Dtype) (z y x : Int) : Int :=
  roundf (cam_K cam_info 4
    * (point_cam cam_info vox_info z y x 1 / point_cam cam_info vox_info z y x 2)
    + cam_K cam_info 5)

/-- The sample `point_depth = depth_data[pixel_y * frame_width + pixel_x]`. -/
def point_depth (cam_info vox_info depth_data : Int → Dtype) (z y x : Int) : Dtype :=
  depth_data (pixel_y cam_info vox_info z y x * frame_width cam_info
    + pixel_x cam_info vox_info z y x)

/-- The distance `point_dist = (point_depth - point_cam[2]) * sqrtf(1 + (pc0/pc2)^2 + (pc1/pc2)^2)`. -/
def point_dist (sqrtf : Dtype → Dtype) (cam_info vox_info depth_data : Int → Dtype)
    (z y x : Int) : Dtype :=
  (point_depth cam_info vox_info depth_data z y x - point_cam cam_info vox_info z y x 2)
    * sqrtf (1
        + (point_cam cam_info vox_info z y x 0 / point_cam cam_info vox_info z y x 2) ^ 2
        + (point_cam cam_info vox_info z y x 1 / point_cam cam_info vox_info z y x 2) ^ 2)

/-- The statement `if (vox_height != NULL) vox_height[vox_idx] = ...`. -/
def encodeHeight (vox_info : Int → Dtype) (z y x : Int) (vol : Volume) : Volume :=
  match vol.vox_height with
  | some h =>
    { vol with vox_height := some (store h (vox_idx vox_info z y x) (height_val vox_info z y x)) }
  | none => vol

/-- The statement `vox_tsdf[vox_idx] = -1.0`. -/
def setSentinel (vox_info : Int → Dtype) (z y x : Int) (vol : Volume) : Volume :=
  { vol with vox_tsdf := store vol.vox_tsdf (vox_idx vox_info z y x) (-1) }

/-- The body of the `x` loop of `Integrate` for block `z`, thread `y` and column `x`;
each early exit is a `continue` of the source. -/
def IntegrateVoxel (sqrtf : Dtype → Dtype) (cam_info vox_info depth_data : Int → Dtype)
    (z y x : Int) (vol : Volume) : Volume :=
  let vol := encodeHeight vox_info z y x vol
  if point_cam cam_info vox_info z y x 2 ≤ 0 then vol
  else if pixel_x cam_info vox_info z y x < 0
      ∨ pixel_x cam_info vox_info z y x ≥ frame_width cam_info
      ∨ pixel_y cam_info vox_info z y x < 0
      ∨ pixel_y cam_info vox_info z y x ≥ frame_height cam_info then vol
  else if point_depth cam_info vox_info depth_data z y x < 0
      ∨ point_depth cam_info vox_info depth_data z y x > 10 then vol
  else if roundf (point_depth cam_info vox_info depth_data z y x) = 0 then
    setSentinel vox_info z y x vol
  else if point_dist sqrtf cam_info vox_info depth_data z y x > -vox_margin vox_info then
    let sdf := min 1 (point_dist sqrtf cam_info vox_info depth_data z y x / vox_margin vox_info)
    let weight_old := vol.vox_weight (vox_idx vox_info z y x)
    let weight_new := weight_old + 1
    let vol := { vol with vox_weight := store vol.vox_weight (vox_idx vox_info z y x) weight_new }
    let tsdf_new := (vol.vox_tsdf (vox_idx vox_info z y x) * weight_old + sdf) / weight_new
    { vol with vox_tsdf := store vol.vox_tsdf (vox_idx vox_info z y x) tsdf_new }
  else setSentinel vox_info z y x vol

/-- One thread of `Integrate`: `for (int x = 0; x < vox_size[0]; ++x)` with
`z = blockIdx.x` and `y = threadIdx.x`. -/
def Integrate (sqrtf : Dtype → Dtype) (cam_info vox_info depth_data : Int → Dtype)
    (blockIdx threadIdx : Nat) (vol : Volume) : Volume :=
  (List.range (vox_size vox_info 0).toNat).foldl
    (fun v (x : Nat) =>
      IntegrateVoxel sqrtf cam_info vox_info depth_data blockIdx threadIdx x v) vol

/-- A kernel launch `Integrate<<<gridDim, blockDim>>>`: every thread of every block runs
once.  Threads are run one after the other; when they write disjoint cells this is the
result of every schedule. -/
def IntegrateLaunch (sqrtf : Dtype → Dtype) (cam_info vox_info depth_data : Int → Dtype)
    (gridDim blockDim : Nat) (vol : Volume) : Volume :=
  (List.range gridDim).foldl
    (fun v (b : Nat) => (List.range blockDim).foldl
      (fun v (t : Nat) => Integrate sqrtf cam_info vox_info depth_data b t v) v) vol

/-! ## Cells of a volume and voxels of a launch -/

/-- The contents of a volume at one index: tsdf, weight and (when present) height. -/
def cellAt (vol : Volume) (k : Int) : Dtype × Dtype × Option Dtype :=
  (vol.vox_tsdf k, vol.vox_weight k, vol.vox_height.map (fun h => h k))

/-- A step is cell-local when what it leaves in a cell depends only on that cell. -/
def CellLocal (step : Volume → Volume) : Prop :=
  ∀ (k : Int) (vol vol' : Volume), cellAt vol k = cellAt vol' k →
    cellAt (step vol) k = cellAt (step vol') k

/-- Voxel `(z, y, x)` is visited by a launch with `gridDim` blocks of `blockDim` threads,
and the rows of two threads of such a launch never overlap. -/
def VoxelInLaunch (vox_info : Int → Dtype) (gridDim blockDim z y x : Nat) : Prop :=
  (blockDim : Int) ≤ vox_size vox_info 1 ∧ z < gridDim ∧ y < blockDim
    ∧ (x : Int) < vox_size vox_info 0

/-! ## A one-voxel scene used to instantiate the theorems -/

/-- A 1x1 frame, identity intrinsics with principal point 0, identity pose. -/
def exCam : Int → Dtype :=
  ofList [1, 1, 1, 0, 0, 0, 1, 0, 0, 0, 1, 1, 0, 0, 0, 0, 1, 0, 0, 0, 0, 1, 0, 0, 0, 0, 1]

/-- A 1x1x1 grid of unit voxels with margin 1 whose only voxel lies at world height `h`,
which the identity pose turns into camera depth `h`. -/
def exVox (h : Dtype) : Int → Dtype := ofList [1, 1, 1, 1, 1, 0, 0, h]

/-- A volume with tsdf `t`, weight `w` and height `0` in cell 0. -/
def exVol (t w : Dtype) : Volume := ⟨ofList [t], ofList [w], some (ofList [0])⟩

/-! ## The running mean of one cell -/

/-- The running-mean update of `Integrate` (`weight_old`, `weight_new` and the two stores)
seen from the cell `(tsdf, weight)` it acts on. -/
def fuse (cell : Dtype × Dtype) (sdf : Dtype) : Dtype × Dtype :=
  let weight_old := cell.2
  let weight_new := weight_old + 1
  ((cell.1 * weight_old + sdf) / weight_new, weight_new)

/-! ## The depth decoder -/

/-- An `unsigned char`. -/
abbrev uchar := Fin 256

/-- The value of `depth_raw[i]` after the two assignments of the loop body: the bytes
`data[2 i]`, `data[2 i + 1]` combined into an `unsigned short`, then
`depth_raw[i] << 13 | depth_raw[i] >> 3` (computed in `int`) stored back as
`unsigned short`. -/
def depth_raw (data : Int → uchar) (i : Int) : Nat :=
  let w := (((data (i * 2 + 1)).val <<< 8) + (data (i * 2 + 0)).val) % 2 ^ 16
  (w <<< 13 ||| w >>> 3) % 2 ^ 16

/-- The function `ReadDepthImage` after `cv::imread` has produced the pixel bytes `data`: the loop
`for (int i = 0; i < frame_height * frame_width; ++i)` storing
`depth_data[i] = depth_raw[i] / 1000`. -/
def ReadDepthImage (data : Int → uchar) (depth_data : Int → Dtype)
    (frame_width frame_height : Int) : Int → Dtype :=
  (List.range (frame_height * frame_width).toNat).foldl
    (fun buf (i : Nat) => store buf i ((depth_raw data i : Dtype) / 1000)) depth_data

/-! ## The label decoder -/

/-- The state of a `std::ifstream`: the bytes not yet extracted and two of its state bits. -/
structure IFStream where
  rest : List uchar
  eofbit : Bool
  failbit : Bool

/-- A stream just opened on a file with the given contents. -/
def IFStream.ofBytes (bytes : List uchar) : IFStream := ⟨bytes, false, false⟩

/-- The call `fid.read(dst, n)`: the bytes stored at `dst` and the stream afterwards.  On a
stream that is not good nothing is extracted and `failbit` is set; when fewer than `n`
bytes are left they are all extracted and both `eofbit` and `failbit` are set. -/
def IFStream.read (s : IFStream) (n : Nat) : List uchar × IFStream :=
  if s.eofbit || s.failbit then ([], { s with failbit := true })
  else if n ≤ s.rest.length then (s.rest.take n, { s with rest := s.rest.drop n })
  else (s.rest, { rest := [], eofbit := true, failbit := true })

/-- The 32-bit word with the given bytes, least significant first. -/
def le32 (bs : List uchar) : Nat :=
  bs.foldr (fun b acc => b.val + 256 * acc) 0

/-- The size `sizeof(Dtype)` for `float`. -/
def sizeofDtype : Nat := 4

/-- The loops `for (i < n) fid.read((char*)&dst[i], sizeof(Dtype))`: the bytes stored in
each of the `n` elements. -/
def readFields : Nat → IFStream → List (List uchar) × IFStream
  | 0, s => ([], s)
  | n + 1, s =>
    let r := s.read sizeofDtype
    let rs := readFields n r.2
    (r.1 :: rs.1, rs.2)

/-- The loop `while (!fid.eof()) { fid.read(&tmp, 4); if (!fid.eof()) push_back(tmp); }`,
run for at most `fuel` iterations; `none` when it has not finished by then. -/
def readRLE : Nat → IFStream → List Nat → Option (List Nat)
  | fuel, s, scene_vox_RLE =>
    if s.eofbit then some scene_vox_RLE
    else match fuel with
      | 0 => none
      | fuel + 1 =>
        let r := s.read 4
        if !r.2.eofbit then readRLE fuel r.2 (scene_vox_RLE ++ [le32 r.1])
        else readRLE fuel r.2 scene_vox_RLE

/-- The two label volumes and the write cursor `vox_idx`. -/
structure LabelState where
  vox_idx : Int
  occupancy_label_fullsize : Int → Dtype
  segmentation_label_fullsize : Int → Dtype

/-- The body of the inner loop: one voxel written, cursor advanced.  An index past the end
of the class map is undefined behaviour in the source; the model reads `0` there. -/
def writeVoxel (segmentation_class_map : List Int) (vox_val : Nat) (st : LabelState) :
    LabelState :=
  { vox_idx := st.vox_idx + 1
    segmentation_label_fullsize :=
      store st.segmentation_label_fullsize st.vox_idx
        ((segmentation_class_map.getD vox_val 0 : Int) : Dtype)
    occupancy_label_fullsize :=
      store st.occupancy_label_fullsize st.vox_idx (if vox_val > 0 then 1 else 0) }

/-- The inner loop `for (size_t j = 0; j < vox_iter; ++j)`. -/
def expandRun (segmentation_class_map : List Int) (vox_val : Nat) :
    Nat → LabelState → LabelState
  | 0, st => st
  | vox_iter + 1, st =>
    expandRun segmentation_class_map vox_val vox_iter
      (writeVoxel segmentation_class_map vox_val st)

/-- The outer loop `for (size_t i = 0; i < scene_vox_RLE.size() / 2; ++i)`. -/
def expandRLE (segmentation_class_map : List Int) (scene_vox_RLE : List Nat)
    (st : LabelState) : LabelState :=
  (List.range (scene_vox_RLE.length / 2)).foldl
    (fun st (i : Nat) =>
      expandRun segmentation_class_map (scene_vox_RLE.getD (i * 2) 0)
        (scene_vox_RLE.getD (i * 2 + 1) 0) st) st

/-- What `ReadVoxLabel` leaves in its four output arrays; `vox_origin` and `cam_pose` are
given by the bytes stored in each element. -/
structure VoxLabel where
  vox_origin : List (List uchar)
  cam_pose : List (List uchar)
  occupancy_label_fullsize : Int → Dtype
  segmentation_label_fullsize : Int → Dtype

/-- The function `ReadVoxLabel` on an open stream; `none` when the reading loop has not finished
within `fuel` iterations. -/
def ReadVoxLabel (fuel : Nat) (fid : IFStream) (occupancy_label_fullsize : Int → Dtype)
    (segmentation_class_map : List Int) (segmentation_label_fullsize : Int → Dtype) :
    Option VoxLabel :=
  let origin := readFields 3 fid
  let pose := readFields 16 origin.2
  match readRLE fuel pose.2 [] with
  | none => none
  | some scene_vox_RLE =>
    let st := expandRLE segmentation_class_map scene_vox_RLE
      ⟨0, occupancy_label_fullsize, segmentation_label_fullsize⟩
    some ⟨origin.1, pose.1, st.occupancy_label_fullsize, st.segmentation_label_fullsize⟩

/-! ## The stream format, for stating the decoder's properties -/

/-- The four bytes of a 32-bit word, least significant first. -/
def bytes32 (n : Nat) : List uchar :=
  [Fin.ofNat n, Fin.ofNat (n / 2 ^ 8), Fin.ofNat (n / 2 ^ 16), Fin.ofNat (n / 2 ^ 24)]

/-- The bytes of a sequence of complete `(value, count)` records. -/
def encodeRecords : List (Nat × Nat) → List uchar
  | [] => []
  | (v, c) :: rs => bytes32 v ++ bytes32 c ++ encodeRecords rs

/-- The complete 8-byte records at the start of a byte sequence. -/
def recordsOf : List uchar → List (Nat × Nat)
  | b0 :: b1 :: b2 :: b3 :: b4 :: b5 :: b6 :: b7 :: rest =>
    (le32 [b0, b1, b2, b3], le32 [b4, b5, b6, b7]) :: recordsOf rest
  | _ => []

/-- The raw labels of a record sequence: `count` copies of each value, in order. -/
def expandRecords : List (Nat × Nat) → List Nat
  | [] => []
  | (v, c) :: rs => List.replicate c v ++ expandRecords rs

/-- The complete 4-byte words at the start of a byte sequence. -/
def wordsOf : List uchar → List Nat
  | b0 :: b1 :: b2 :: b3 :: rest => le32 [b0, b1, b2, b3] :: wordsOf rest
  | _ => []

/-- The complete pairs at the start of a word sequence. -/
def pairsOf : List Nat → List (Nat × Nat)
  | a :: b :: rest => (a, b) :: pairsOf rest
  | _ => []

/-! ## The depth encoding, for stating the round trip -/

/-- The packing that the decoder undoes: the 16-bit left rotation by 3 of a raw value. -/
def encodeDepth (v : Nat) : Nat :=
  (v * 2 ^ 3) % 2 ^ 16 + (v / 2 ^ 13) % 2 ^ 3

/-- Image data whose pixel `i` holds the packed word of `vs i` as the bytes `[low, high]`. -/
def encodeImage (vs : Int → Nat) : Int → uchar :=
  fun j => if j % 2 = 0 then Fin.ofNat (encodeDepth (vs (j / 2)))
    else Fin.ofNat (encodeDepth (vs (j / 2)) / 2 ^ 8)

/-! ## The outcome of the loop body, seen from its cell -/

/-- What one iteration of the loop does to `vox_tsdf` and `vox_weight` at `vox_idx`: nothing
(one of the three `continue` statements before any store), the sentinel store, or the
running-mean update with a given `sdf`. -/
inductive Outcome where
  | skip : Outcome
  | sentinel : Outcome
  | update (sdf : Dtype) : Outcome

/-- The branch of the loop body taken for voxel `(z, y, x)`; it depends on the camera, the
grid and the depth frame, not on the volume. -/
def voxelOutcome (sqrtf : Dtype → Dtype) (cam_info vox_info depth_data : Int → Dtype)
    (z y x : Int) : Outcome :=
  if point_cam cam_info vox_info z y x 2 ≤ 0 then Outcome.skip
  else if pixel_x cam_info vox_info z y x < 0
      ∨ pixel_x cam_info vox_info z y x ≥ frame_width cam_info
      ∨ pixel_y cam_info vox_info z y x < 0
      ∨ pixel_y cam_info vox_info z y x ≥ frame_height cam_info then Outcome.skip
  else if point_depth cam_info vox_info depth_data z y x < 0
      ∨ point_depth cam_info vox_info depth_data z y x > 10 then Outcome.skip
  else if roundf (point_depth cam_info vox_info depth_data z y x) = 0 then Outcome.sentinel
  else if point_dist sqrtf cam_info vox_info depth_data z y x > -vox_margin vox_info then
    Outcome.update
      (min 1 (point_dist sqrtf cam_info vox_info depth_data z y x / vox_margin vox_info))
  else Outcome.sentinel

/-- The effect of an outcome on the cell `(tsdf, weight)`. -/
def applyOutcome : Outcome → Dtype × Dtype → Dtype × Dtype
  | Outcome.skip, cell => cell
  | Outcome.sentinel, cell => (-1, cell.2)
  | Outcome.update sdf, cell => fuse cell sdf

/-! ## The pose as a matrix, and the reads and divisions of one iteration -/

/-- The rotation block of the pose: `R i j = cam_pose[i * 4 + j]`. -/
def poseRotation (cam_info : Int → Dtype) : Matrix (Fin 3) (Fin 3) Dtype :=
  Matrix.of (fun i j => cam_pose cam_info ((i.val : Int) * 4 + (j.val : Int)))

/-- The translation column of the pose: `t i = cam_pose[i * 4 + 3]`. -/
def poseTranslation (cam_info : Int → Dtype) : Fin 3 → Dtype :=
  fun i => cam_pose cam_info ((i.val : Int) * 4 + 3)

/-- The indices at which one iteration of the loop reads `depth_data`: none when the voxel
is left at one of the first two `continue` statements, else the index of the pixel. -/
def voxelDepthReads (cam_info vox_info : Int → Dtype) (z y x : Int) : List Int :=
  if point_cam cam_info vox_info z y x 2 ≤ 0 then []
  else if pixel_x cam_info vox_info z y x < 0
      ∨ pixel_x cam_info vox_info z y x ≥ frame_width cam_info
      ∨ pixel_y cam_info vox_info z y x < 0
      ∨ pixel_y cam_info vox_info z y x ≥ frame_height cam_info then []
  else [pixel_y cam_info vox_info z y x * frame_width cam_info
    + pixel_x cam_info vox_info z y x]

/-- The divisors of the divisions one iteration of the loop performs, in program order:
`2.5` for the height (when requested), `point_cam[2]` twice for the projection, and, for a
voxel that is integrated, `point_cam[2]` twice for the distance, then `vox_margin` and
`weight_new` in the update branch. -/
def voxelDivisors (sqrtf : Dtype → Dtype) (cam_info vox_info depth_data : Int → Dtype)
    (z y x : Int) (vol : Volume) : List Dtype :=
  (match vol.vox_height with
    | some _ => [25 / 10]
    | none => [])
  ++ (if point_cam cam_info vox_info z y x 2 ≤ 0 then []
      else [point_cam cam_info vox_info z y x 2, point_cam cam_info vox_info z y x 2]
        ++ (if pixel_x cam_info vox_info z y x < 0
              ∨ pixel_x cam_info vox_info z y x ≥ frame_width cam_info
              ∨ pixel_y cam_info vox_info z y x < 0
              ∨ pixel_y cam_info vox_info z y x ≥ frame_height cam_info then []
            else if point_depth cam_info vox_info depth_data z y x < 0
              ∨ point_depth cam_info vox_info depth_data z y x > 10 then []
            else if roundf (point_depth cam_info vox_info depth_data z y x) = 0 then []
            else [point_cam cam_info vox_info z y x 2, point_cam cam_info vox_info z y x 2]
              ++ (if point_dist sqrtf cam_info vox_info depth_data z y x
                    > -vox_margin vox_info then
                  [vox_margin vox_info, vol.vox_weight (vox_idx vox_info z y x) + 1]
                else [])))

/-! ## The end-to-end scene -/

/-- A 4x4x1 grid with `vox_unit = 0.1`, `vox_margin = 0.05` and origin `(0, 0, 0)`. -/
def sceneVox : Int → Dtype := ofList [1 / 10, 1 / 20, 4, 4, 1, 0, 0, 0]

/-- The macro `CUDA_NUM_THREADS`. -/
def CUDA_NUM_THREADS : Nat := 512

/-- The macro `MAX_NUM_BLOCKS`. -/
def MAX_NUM_BLOCKS : Int := 2880

/-- Conversion of a `size_t` to `int`: the value modulo `2^32` read as two's complement. -/
def sizeToInt (n : Nat) : Int :=
  if n % 2 ^ 32 < 2 ^ 31 then ((n % 2 ^ 32 : Nat) : Int) else ((n % 2 ^ 32 : Nat) : Int) - 2 ^ 32

/-- Conversion of an `int` to `size_t`: the value modulo `2^64`. -/
def intToSize (i : Int) : Nat := (i % 2 ^ 64).toNat

/-- The function `CUDA_GET_BLOCKS`:
`min(MAX_NUM_BLOCKS, int((N + size_t(CUDA_NUM_THREADS) - 1) / CUDA_NUM_THREADS))`, the sum
taken in `size_t`. -/
def CUDA_GET_BLOCKS (N : Nat) : Int :=
  min MAX_NUM_BLOCKS (sizeToInt ((N + CUDA_NUM_THREADS - 1) % 2 ^ 64 / CUDA_NUM_THREADS))

/-- The function `CUDA_GET_LOOPS`: `(N + total_threads - 1) / total_threads` in `size_t`,
with `total_threads = CUDA_GET_BLOCKS(N) * CUDA_NUM_THREADS`. -/
def CUDA_GET_LOOPS (N : Nat) : Nat :=
  let total_threads := intToSize (CUDA_GET_BLOCKS N * (CUDA_NUM_THREADS : Int))
  (N + total_threads - 1) % 2 ^ 64 / total_threads

/-- One thread of `Kernel_set_value`: with
`idxBase = CUDA_NUM_LOOPS * (CUDA_NUM_THREADS * blockIdx + threadIdx)` it returns at once
when `idxBase >= N` and otherwise stores `value` at every `idx` from `idxBase` up to
`min(N, idxBase + CUDA_NUM_LOOPS)`, all in `size_t`. -/
def Kernel_set_value (CUDA_NUM_LOOPS N : Nat) (GPUdst : Int → Dtype) (value : Dtype)
    (blockIdx threadIdx : Nat) : Int → Dtype :=
  let idxBase := CUDA_NUM_LOOPS * ((CUDA_NUM_THREADS * blockIdx + threadIdx) % 2 ^ 64) % 2 ^ 64
  if idxBase ≥ N then GPUdst
  else
    (List.range (min N ((idxBase + CUDA_NUM_LOOPS) % 2 ^ 64) - idxBase)).foldl
      (fun dst (j : Nat) => store dst ((idxBase + j : Nat) : Int) value) GPUdst

/-- The function `GPU_set_value`: the launch
`Kernel_set_value<<<CUDA_GET_BLOCKS(N), CUDA_NUM_THREADS>>>(CUDA_GET_LOOPS(N), N, GPUdst, value)`,
its threads run one after the other. -/
def GPU_set_value (N : Nat) (GPUdst : Int → Dtype) (value : Dtype) : Int → Dtype :=
  (List.range (CUDA_GET_BLOCKS N).toNat).foldl
    (fun dst (b : Nat) => (List.range CUDA_NUM_THREADS).foldl
      (fun dst (t : Nat) => Kernel_set_value (CUDA_GET_LOOPS N) N dst value b t) dst) GPUdst

/-! ## The running mean in single precision -/

/-- Rounding of a rational to the nearest integer, halfway cases to the even one. -/
def roundTiesEven (q : Dtype) : Int :=
  if q - ⌊q⌋ < 1 / 2 then ⌊q⌋
  else if 1 / 2 < q - ⌊q⌋ then ⌊q⌋ + 1
  else if ⌊q⌋ % 2 = 0 then ⌊q⌋ else ⌊q⌋ + 1

/-- Rounding of a real result to `float` (IEEE 754 binary32, round to nearest, ties to
even): the result is scaled by the unit in the last place of its binade (24 significant
bits, smallest normal exponent `-126`), rounded to an integer and scaled back.  Overflow to
an infinity is not modelled. -/
def binary32 (q : Dtype) : Dtype :=
  if q = 0 then 0
  else
    let ulp : Dtype := 2 ^ (max (Int.log 2 |q|) (-126) - 23)
    (roundTiesEven (q / ulp) : Dtype) * ulp

/-- The running-mean branch of `Integrate` for `Dtype = float`, every operation rounded to
binary32: `sdf = fmin(1, point_dist / vox_margin)`, `weight_new = weight_old + 1`, and the
stored tsdf `(tsdf * weight_old + sdf) / weight_new`, seen from the cell `(tsdf, weight)`.
The product and the sum are rounded separately; a fused multiply-add rounds them once and
gives the same value whenever the product is itself a binary32 value. -/
def fuseBinary32 (cell : Dtype × Dtype) (point_dist vox_margin : Dtype) : Dtype × Dtype :=
  let sdf := min 1 (binary32 (point_dist / vox_margin))
  let weight_old := cell.2
  let weight_new := binary32 (weight_old + 1)
  (binary32 (binary32 (binary32 (cell.1 * weight_old) + sdf) / weight_new), weight_new)

/-! ## Frame and locality of the loop body -/

theorem store_same (buf : Int → Dtype) (i : Int) (v : Dtype) : store buf i v i = v := by
  simp [store]

theorem store_other (buf : Int → Dtype) (i k : Int) (v : Dtype) (h : k ≠ i) :
    store buf i v k = buf k := by
  simp [store, h]

theorem encodeHeight_tsdf (vox_info : Int → Dtype) (z y x : Int) (vol : Volume) :
    (encodeHeight vox_info z y x vol).vox_tsdf = vol.vox_tsdf := by
  obtain ⟨t, w, h⟩ := vol
  cases h <;> rfl

theorem encodeHeight_weight (vox_info : Int → Dtype) (z y x : Int) (vol : Volume) :
    (encodeHeight vox_info z y x vol).vox_weight = vol.vox_weight := by
  obtain ⟨t, w, h⟩ := vol
  cases h <;> rfl

theorem encodeHeight_height (vox_info : Int → Dtype) (z y x : Int) (vol : Volume) :
    (encodeHeight vox_info z y x vol).vox_height
      = vol.vox_height.map
          (fun h => store h (vox_idx vox_info z y x) (height_val vox_info z y x)) := by
  obtain ⟨t, w, h⟩ := vol
  cases h <;> rfl

/-- The height buffer after the loop body is the one after the height statement. -/
theorem IntegrateVoxel_height (sqrtf : Dtype → Dtype)
    (cam_info vox_info depth_data : Int → Dtype) (z y x : Int) (vol : Volume) :
    (IntegrateVoxel sqrtf cam_info vox_info depth_data z y x vol).vox_height
      = vol.vox_height.map
          (fun h => store h (vox_idx vox_info z y x) (height_val vox_info z y x)) := by
  unfold IntegrateVoxel
  simp only []
  split_ifs <;> simp [setSentinel, encodeHeight_height]

/-- The loop body writes no cell other than `vox_idx`. -/
theorem IntegrateVoxel_frame (sqrtf : Dtype → Dtype)
    (cam_info vox_info depth_data : Int → Dtype) (z y x : Int) (vol : Volume) (k : Int)
    (hk : k ≠ vox_idx vox_info z y x) :
    cellAt (IntegrateVoxel sqrtf cam_info vox_info depth_data z y x vol) k = cellAt vol k := by
  have hh : (IntegrateVoxel sqrtf cam_info vox_info depth_data z y x vol).vox_height.map
      (fun h => h k) = vol.vox_height.map (fun h => h k) := by
    rw [IntegrateVoxel_height]
    cases vol.vox_height <;> simp [store_other _ _ _ _ hk]
  unfold cellAt
  rw [hh]
  unfold IntegrateVoxel
  simp only []
  split_ifs <;>
    simp [setSentinel, encodeHeight_tsdf, encodeHeight_weight, store_other _ _ _ _ hk]

/-- What the loop body leaves at `vox_idx` depends only on what was there before. -/
theorem IntegrateVoxel_local (sqrtf : Dtype → Dtype)
    (cam_info vox_info depth_data : Int → Dtype) (z y x : Int) (vol vol' : Volume)
    (h : cellAt vol (vox_idx vox_info z y x) = cellAt vol' (vox_idx vox_info z y x)) :
    cellAt (IntegrateVoxel sqrtf cam_info vox_info depth_data z y x vol)
        (vox_idx vox_info z y x)
      = cellAt (IntegrateVoxel sqrtf cam_info vox_info depth_data z y x vol')
        (vox_idx vox_info z y x) := by
  unfold cellAt at h
  simp only [Prod.mk.injEq] at h
  obtain ⟨ht, hw, hh⟩ := h
  have hh' : (IntegrateVoxel sqrtf cam_info vox_info depth_data z y x vol).vox_height.map
      (fun h => h (vox_idx vox_info z y x))
      = (IntegrateVoxel sqrtf cam_info vox_info depth_data z y x vol').vox_height.map
      (fun h => h (vox_idx vox_info z y x)) := by
    rw [IntegrateVoxel_height, IntegrateVoxel_height]
    cases h1 : vol.vox_height <;> cases h2 : vol'.vox_height <;>
      simp [h1, h2, store_same] at hh ⊢
  unfold cellAt
  rw [hh']
  unfold IntegrateVoxel
  simp only []
  split_ifs <;>
    simp [setSentinel, encodeHeight_tsdf, encodeHeight_weight, store_same, ht, hw]

theorem IntegrateVoxel_cellLocal (sqrtf : Dtype → Dtype)
    (cam_info vox_info depth_data : Int → Dtype) (z y x : Int) :
    CellLocal (IntegrateVoxel sqrtf cam_info vox_info depth_data z y x) := by
  intro k vol vol' h
  by_cases hk : k = vox_idx vox_info z y x
  · subst hk
    exact IntegrateVoxel_local sqrtf cam_info vox_info depth_data z y x vol vol' h
  · rw [IntegrateVoxel_frame _ _ _ _ _ _ _ _ _ hk, IntegrateVoxel_frame _ _ _ _ _ _ _ _ _ hk]
    exact h

theorem foldl_cellLocal {C : Type} (step : C → Volume → Volume)
    (loc : ∀ c, CellLocal (step c)) (l : List C) :
    CellLocal (fun vol => l.foldl (fun v c => step c v) vol) := by
  induction l with
  | nil => intro k vol vol' h; simpa using h
  | cons a l ih =>
    intro k vol vol' h
    simp only [List.foldl_cons]
    exact ih k _ _ (loc a k vol vol' h)

/-- A run of steps none of which writes cell `k` leaves cell `k` as it was. -/
theorem foldl_cellAt_untouched {C : Type} (step : C → Volume → Volume) (k : Int)
    (l : List C) (hframe : ∀ c ∈ l, ∀ vol, cellAt (step c vol) k = cellAt vol k)
    (vol : Volume) :
    cellAt (l.foldl (fun v c => step c v) vol) k = cellAt vol k := by
  induction l generalizing vol with
  | nil => rfl
  | cons a l ih =>
    simp only [List.foldl_cons]
    rw [ih (fun c hc => hframe c (List.mem_cons_of_mem _ hc)), hframe a (List.mem_cons_self _ _)]

/-- In a run of cell-local steps of which only step `c` writes cell `k`, the cell ends as
step `c` alone leaves it. -/
theorem foldl_cellAt_single {C : Type} (step : C → Volume → Volume) (k : Int)
    (loc : ∀ c, CellLocal (step c)) (l : List C) (hnd : l.Nodup) (c : C) (hc : c ∈ l)
    (hframe : ∀ c' ∈ l, c' ≠ c → ∀ vol, cellAt (step c' vol) k = cellAt vol k)
    (vol : Volume) :
    cellAt (l.foldl (fun v c => step c v) vol) k = cellAt (step c vol) k := by
  induction l generalizing vol with
  | nil => cases hc
  | cons a l ih =>
    simp only [List.foldl_cons]
    rw [List.nodup_cons] at hnd
    rcases List.mem_cons.1 hc with rfl | hmem
    · apply foldl_cellAt_untouched
      intro c' hc' vol'
      exact hframe c' (List.mem_cons_of_mem _ hc') (fun h => hnd.1 (h ▸ hc')) vol'
    · have hne : a ≠ c := fun h => hnd.1 (h ▸ hmem)
      rw [ih hnd.2 hmem (fun c' hc' => hframe c' (List.mem_cons_of_mem _ hc'))]
      exact loc c k _ _ (hframe a (List.mem_cons_self _ _) hne vol)

/-- Distinct voxels of a grid have distinct flattened indices. -/
theorem flat_index_inj (nx ny z y x z' y' x' : Int)
    (hx : 0 ≤ x) (hxn : x < nx) (hx' : 0 ≤ x') (hxn' : x' < nx)
    (hy : 0 ≤ y) (hyn : y < ny) (hy' : 0 ≤ y') (hyn' : y' < ny)
    (h : z * nx * ny + y * nx + x = z' * nx * ny + y' * nx + x') :
    z = z' ∧ y = y' ∧ x = x' := by
  have hnx : 0 < nx := lt_of_le_of_lt hx hxn
  have hny : 0 < ny := lt_of_le_of_lt hy hyn
  have e1 : x + nx * (z * ny + y) = x' + nx * (z' * ny + y') := by linarith [h]
  have hxx : x = x' := by
    have := congrArg (fun t => t % nx) e1
    simp only [Int.add_mul_emod_self_left] at this
    rwa [Int.emod_eq_of_lt hx hxn, Int.emod_eq_of_lt hx' hxn'] at this
  subst hxx
  have e2 : y + ny * z = y' + ny * z' := by
    have e3 : nx * (z * ny + y) = nx * (z' * ny + y') := by linarith
    have := mul_left_cancel₀ (ne_of_gt hnx) e3
    linarith
  have hyy : y = y' := by
    have := congrArg (fun t => t % ny) e2
    simp only [Int.add_mul_emod_self_left] at this
    rwa [Int.emod_eq_of_lt hy hyn, Int.emod_eq_of_lt hy' hyn'] at this
  subst hyy
  refine ⟨?_, rfl, rfl⟩
  have e4 : ny * z = ny * z' := by linarith
  exact mul_left_cancel₀ (ne_of_gt hny) e4

/-! ## One thread and one launch, seen from a single voxel -/

theorem Integrate_cellLocal (sqrtf : Dtype → Dtype)
    (cam_info vox_info depth_data : Int → Dtype) (b t : Nat) :
    CellLocal (Integrate sqrtf cam_info vox_info depth_data b t) :=
  foldl_cellLocal (fun (x : Nat) => IntegrateVoxel sqrtf cam_info vox_info depth_data b t x)
    (fun x => IntegrateVoxel_cellLocal sqrtf cam_info vox_info depth_data b t x) _

/-- A thread writes only the cells of its own row. -/
theorem Integrate_frame (sqrtf : Dtype → Dtype)
    (cam_info vox_info depth_data : Int → Dtype) (b t : Nat) (k : Int)
    (hk : ∀ x : Nat, (x : Int) < vox_size vox_info 0 → k ≠ vox_idx vox_info b t x)
    (vol : Volume) :
    cellAt (Integrate sqrtf cam_info vox_info depth_data b t vol) k = cellAt vol k := by
  unfold Integrate
  apply foldl_cellAt_untouched
    (fun (x : Nat) => IntegrateVoxel sqrtf cam_info vox_info depth_data b t x)
  intro x hx vol'
  apply IntegrateVoxel_frame
  apply hk
  have := List.mem_range.1 hx
  omega

/-- Within its row a thread leaves each voxel as the loop body for that voxel leaves it. -/
theorem Integrate_cellAt (sqrtf : Dtype → Dtype)
    (cam_info vox_info depth_data : Int → Dtype) (b t x : Nat)
    (hx : (x : Int) < vox_size vox_info 0) (vol : Volume) :
    cellAt (Integrate sqrtf cam_info vox_info depth_data b t vol) (vox_idx vox_info b t x)
      = cellAt (IntegrateVoxel sqrtf cam_info vox_info depth_data b t x vol)
          (vox_idx vox_info b t x) := by
  unfold Integrate
  apply foldl_cellAt_single
    (fun (x : Nat) => IntegrateVoxel sqrtf cam_info vox_info depth_data b t x)
  · exact fun x => IntegrateVoxel_cellLocal sqrtf cam_info vox_info depth_data b t x
  · exact List.nodup_range _
  · rw [List.mem_range]; omega
  · intro x' _ hne vol'
    apply IntegrateVoxel_frame
    intro h
    apply hne
    unfold vox_idx at h
    have : (x' : Int) = x := by linarith
    exact_mod_cast this

/-- After a launch whose blocks have at most `vox_size[1]` threads, every voxel that some
thread visits holds what the loop body for that voxel alone makes of its prior contents. -/
theorem IntegrateLaunch_cellAt (sqrtf : Dtype → Dtype)
    (cam_info vox_info depth_data : Int → Dtype) (gridDim blockDim : Nat)
    (hb : (blockDim : Int) ≤ vox_size vox_info 1) (z y x : Nat)
    (hz : z < gridDim) (hy : y < blockDim) (hx : (x : Int) < vox_size vox_info 0)
    (vol : Volume) :
    cellAt (IntegrateLaunch sqrtf cam_info vox_info depth_data gridDim blockDim vol)
        (vox_idx vox_info z y x)
      = cellAt (IntegrateVoxel sqrtf cam_info vox_info depth_data z y x vol)
          (vox_idx vox_info z y x) := by
  have hne : ∀ (z' y' x' : Nat), y' < blockDim → (x' : Int) < vox_size vox_info 0 →
      (z' ≠ z ∨ y' ≠ y) → vox_idx vox_info z y x ≠ vox_idx vox_info z' y' x' := by
    intro z' y' x' hy' hx' hzy h
    unfold vox_idx at h
    have := flat_index_inj (vox_size vox_info 0) (vox_size vox_info 1) z y x z' y' x'
      (by omega) hx (by omega) hx' (by omega) (by omega) (by omega) (by omega) h
    omega
  unfold IntegrateLaunch
  rw [foldl_cellAt_single
    (fun (b : Nat) (v : Volume) => (List.range blockDim).foldl
      (fun v t => Integrate sqrtf cam_info vox_info depth_data b t v) v)
    (vox_idx vox_info z y x) _ (List.range gridDim) (List.nodup_range _) z
    (List.mem_range.2 hz)]
  · rw [foldl_cellAt_single
      (fun (t : Nat) => Integrate sqrtf cam_info vox_info depth_data z t)
      (vox_idx vox_info z y x) _ (List.range blockDim) (List.nodup_range _) y
      (List.mem_range.2 hy)]
    · exact Integrate_cellAt sqrtf cam_info vox_info depth_data z y x hx vol
    · intro t' ht' hne' vol'
      apply Integrate_frame
      intro x' hx'
      exact hne z t' x' (List.mem_range.1 ht') hx' (Or.inr hne')
    · exact fun t => Integrate_cellLocal sqrtf cam_info vox_info depth_data z t
  · intro b' _ hne' vol'
    apply foldl_cellAt_untouched
      (fun (t : Nat) => Integrate sqrtf cam_info vox_info depth_data b' t)
    intro t' ht' vol''
    apply Integrate_frame
    intro x' hx'
    exact hne b' t' x' (List.mem_range.1 ht') hx' (Or.inl hne')
  · intro b
    exact foldl_cellLocal (fun (t : Nat) => Integrate sqrtf cam_info vox_info depth_data b t)
      (fun t => Integrate_cellLocal sqrtf cam_info vox_info depth_data b t) _

theorem IntegrateLaunch_tsdf (sqrtf : Dtype → Dtype)
    (cam_info vox_info depth_data : Int → Dtype) (gridDim blockDim z y x : Nat)
    (hv : VoxelInLaunch vox_info gridDim blockDim z y x) (vol : Volume) :
    (IntegrateLaunch sqrtf cam_info vox_info depth_data gridDim blockDim vol).vox_tsdf
        (vox_idx vox_info z y x)
      = (IntegrateVoxel sqrtf cam_info vox_info depth_data z y x vol).vox_tsdf
          (vox_idx vox_info z y x) :=
  congrArg Prod.fst (IntegrateLaunch_cellAt sqrtf cam_info vox_info depth_data gridDim blockDim
    hv.1 z y x hv.2.1 hv.2.2.1 hv.2.2.2 vol)

theorem IntegrateLaunch_weight (sqrtf : Dtype → Dtype)
    (cam_info vox_info depth_data : Int → Dtype) (gridDim blockDim z y x : Nat)
    (hv : VoxelInLaunch vox_info gridDim blockDim z y x) (vol : Volume) :
    (IntegrateLaunch sqrtf cam_info vox_info depth_data gridDim blockDim vol).vox_weight
        (vox_idx vox_info z y x)
      = (IntegrateVoxel sqrtf cam_info vox_info depth_data z y x vol).vox_weight
          (vox_idx vox_info z y x) :=
  congrArg (fun c => c.2.1) (IntegrateLaunch_cellAt sqrtf cam_info vox_info depth_data gridDim
    blockDim hv.1 z y x hv.2.1 hv.2.2.1 hv.2.2.2 vol)

theorem IntegrateLaunch_height (sqrtf : Dtype → Dtype)
    (cam_info vox_info depth_data : Int → Dtype) (gridDim blockDim z y x : Nat)
    (hv : VoxelInLaunch vox_info gridDim blockDim z y x) (vol : Volume) :
    (IntegrateLaunch sqrtf cam_info vox_info depth_data gridDim blockDim vol).vox_height.map
        (fun h => h (vox_idx vox_info z y x))
      = vol.vox_height.map (fun _ => height_val vox_info z y x) := by
  have := congrArg (fun c => c.2.2) (IntegrateLaunch_cellAt sqrtf cam_info vox_info depth_data
    gridDim blockDim hv.1 z y x hv.2.1 hv.2.2.1 hv.2.2.2 vol)
  simp only [cellAt] at this
  rw [this, IntegrateVoxel_height]
  cases vol.vox_height <;> simp [store_same]

/-- A launch leaves every cell that none of its threads visits as it was. -/
theorem IntegrateLaunch_untouched (sqrtf : Dtype → Dtype)
    (cam_info vox_info depth_data : Int → Dtype) (gridDim blockDim : Nat) (k : Int)
    (hk : ∀ z y x : Nat, z < gridDim → y < blockDim → (x : Int) < vox_size vox_info 0 →
      k ≠ vox_idx vox_info z y x) (vol : Volume) :
    cellAt (IntegrateLaunch sqrtf cam_info vox_info depth_data gridDim blockDim vol) k
      = cellAt vol k := by
  unfold IntegrateLaunch
  apply foldl_cellAt_untouched
    (fun (b : Nat) (v : Volume) => (List.range blockDim).foldl
      (fun v (t : Nat) => Integrate sqrtf cam_info vox_info depth_data b t v) v)
  intro b hb vol'
  apply foldl_cellAt_untouched
    (fun (t : Nat) => Integrate sqrtf cam_info vox_info depth_data b t)
  intro t ht vol''
  apply Integrate_frame
  intro x hx
  exact hk b t x (List.mem_range.1 hb) (List.mem_range.1 ht) hx

/-- Every cell is either visited by exactly the loop body of one voxel or left alone. -/
theorem IntegrateLaunch_cell_cases (sqrtf : Dtype → Dtype)
    (cam_info vox_info depth_data : Int → Dtype) (gridDim blockDim : Nat)
    (hb : (blockDim : Int) ≤ vox_size vox_info 1) (k : Int) (vol : Volume) :
    cellAt (IntegrateLaunch sqrtf cam_info vox_info depth_data gridDim blockDim vol) k
        = cellAt vol k
    ∨ ∃ z y x : Nat, k = vox_idx vox_info z y x ∧
        cellAt (IntegrateLaunch sqrtf cam_info vox_info depth_data gridDim blockDim vol) k
          = cellAt (IntegrateVoxel sqrtf cam_info vox_info depth_data z y x vol) k := by
  by_cases h : ∃ z y x : Nat, z < gridDim ∧ y < blockDim ∧ (x : Int) < vox_size vox_info 0
      ∧ k = vox_idx vox_info z y x
  · obtain ⟨z, y, x, hz, hy, hx, rfl⟩ := h
    exact Or.inr ⟨z, y, x, rfl, IntegrateLaunch_cellAt sqrtf cam_info vox_info depth_data
      gridDim blockDim hb z y x hz hy hx vol⟩
  · left
    apply IntegrateLaunch_untouched
    intro z y x hz hy hx hk
    exact h ⟨z, y, x, hz, hy, hx, hk⟩

/-! ## The outcomes of the loop body -/

/-- The three `continue` statements that write nothing to `vox_tsdf` and `vox_weight`. -/
theorem IntegrateVoxel_skip (sqrtf : Dtype → Dtype)
    (cam_info vox_info depth_data : Int → Dtype) (z y x : Int) (vol : Volume)
    (h : point_cam cam_info vox_info z y x 2 ≤ 0
      ∨ (pixel_x cam_info vox_info z y x < 0
          ∨ pixel_x cam_info vox_info z y x ≥ frame_width cam_info
          ∨ pixel_y cam_info vox_info z y x < 0
          ∨ pixel_y cam_info vox_info z y x ≥ frame_height cam_info)
      ∨ (point_depth cam_info vox_info depth_data z y x < 0
          ∨ point_depth cam_info vox_info depth_data z y x > 10)) :
    (IntegrateVoxel sqrtf cam_info vox_info depth_data z y x vol).vox_tsdf = vol.vox_tsdf
    ∧ (IntegrateVoxel sqrtf cam_info vox_info depth_data z y x vol).vox_weight
        = vol.vox_weight := by
  unfold IntegrateVoxel
  simp only []
  split_ifs with h1 h2 h3 <;>
    first
    | exact ⟨encodeHeight_tsdf _ _ _ _ _, encodeHeight_weight _ _ _ _ _⟩
    | (exfalso; tauto)

/-- The loop body never touches a weight except to add one to it at `vox_idx`. -/
theorem IntegrateVoxel_weight_cases (sqrtf : Dtype → Dtype)
    (cam_info vox_info depth_data : Int → Dtype) (z y x : Int) (vol : Volume) :
    (IntegrateVoxel sqrtf cam_info vox_info depth_data z y x vol).vox_weight
          (vox_idx vox_info z y x) = vol.vox_weight (vox_idx vox_info z y x)
    ∨ (IntegrateVoxel sqrtf cam_info vox_info depth_data z y x vol).vox_weight
          (vox_idx vox_info z y x) = vol.vox_weight (vox_idx vox_info z y x) + 1 := by
  unfold IntegrateVoxel
  simp only []
  split_ifs <;> simp [setSentinel, encodeHeight_weight, store_same]

/-- The sentinel and running-mean outcomes, for a voxel past the three skip tests. -/
theorem IntegrateVoxel_reached (sqrtf : Dtype → Dtype)
    (cam_info vox_info depth_data : Int → Dtype) (z y x : Int) (vol : Volume)
    (hcam : 0 < point_cam cam_info vox_info z y x 2)
    (hpx : 0 ≤ pixel_x cam_info vox_info z y x
      ∧ pixel_x cam_info vox_info z y x < frame_width cam_info)
    (hpy : 0 ≤ pixel_y cam_info vox_info z y x
      ∧ pixel_y cam_info vox_info z y x < frame_height cam_info)
    (hd : 0 ≤ point_depth cam_info vox_info depth_data z y x
      ∧ point_depth cam_info vox_info depth_data z y x ≤ 10) :
    ((roundf (point_depth cam_info vox_info depth_data z y x) = 0
        ∨ point_dist sqrtf cam_info vox_info depth_data z y x ≤ -vox_margin vox_info) →
      (IntegrateVoxel sqrtf cam_info vox_info depth_data z y x vol).vox_tsdf
          (vox_idx vox_info z y x) = -1
      ∧ (IntegrateVoxel sqrtf cam_info vox_info depth_data z y x vol).vox_weight
          (vox_idx vox_info z y x) = vol.vox_weight (vox_idx vox_info z y x))
    ∧ (roundf (point_depth cam_info vox_info depth_data z y x) ≠ 0 →
       point_dist sqrtf cam_info vox_info depth_data z y x > -vox_margin vox_info →
      (IntegrateVoxel sqrtf cam_info vox_info depth_data z y x vol).vox_weight
          (vox_idx vox_info z y x) = vol.vox_weight (vox_idx vox_info z y x) + 1
      ∧ (IntegrateVoxel sqrtf cam_info vox_info depth_data z y x vol).vox_tsdf
          (vox_idx vox_info z y x)
        = (vol.vox_tsdf (vox_idx vox_info z y x) * vol.vox_weight (vox_idx vox_info z y x)
            + min 1 (point_dist sqrtf cam_info vox_info depth_data z y x
                / vox_margin vox_info))
          / (vol.vox_weight (vox_idx vox_info z y x) + 1)) := by
  have h1 : ¬ point_cam cam_info vox_info z y x 2 ≤ 0 := not_le.2 hcam
  have h2 : ¬ (pixel_x cam_info vox_info z y x < 0
      ∨ pixel_x cam_info vox_info z y x ≥ frame_width cam_info
      ∨ pixel_y cam_info vox_info z y x < 0
      ∨ pixel_y cam_info vox_info z y x ≥ frame_height cam_info) := by
    rintro (h | h | h | h) <;> omega
  have h3 : ¬ (point_depth cam_info vox_info depth_data z y x < 0
      ∨ point_depth cam_info vox_info depth_data z y x > 10) := by
    rintro (h | h)
    · exact absurd hd.1 (not_le.2 h)
    · exact absurd hd.2 (not_le.2 h)
  unfold IntegrateVoxel
  simp only [h1, h2, h3, if_false]
  constructor
  · intro h
    split_ifs with h4 h5
    · simp [setSentinel, encodeHeight_weight, store_same]
    · exfalso
      rcases h with h | h
      · exact h4 h
      · exact absurd h (not_le.2 h5)
    · simp [setSentinel, encodeHeight_weight, store_same]
  · intro h4 h5
    simp only [h4, h5, if_false, if_true]
    simp [encodeHeight_tsdf, encodeHeight_weight, store_same]

/-- Folding the update over observations keeps `tsdf * weight` equal to the running sum. -/
theorem foldl_fuse_invariant (l : List Dtype) (t : Dtype) (n : Nat) :
    (l.foldl fuse (t, (n : Dtype))).2 = (n : Dtype) + l.length
    ∧ (l.foldl fuse (t, (n : Dtype))).1 * ((n : Dtype) + l.length) = t * n + l.sum := by
  induction l generalizing t n with
  | nil => simp
  | cons s l ih =>
    have hn : (n : Dtype) + 1 ≠ 0 := by positivity
    have hstep : fuse (t, (n : Dtype)) s = ((t * n + s) / (n + 1), ((n + 1 : Nat) : Dtype)) := by
      simp [fuse]
    obtain ⟨h1, h2⟩ := ih ((t * n + s) / (n + 1)) (n + 1)
    simp only [List.foldl_cons, hstep, List.length_cons, List.sum_cons]
    rw [h1]
    push_cast at h2 ⊢
    refine ⟨by ring, ?_⟩
    have e : (n : Dtype) + ((l.length : Dtype) + 1) = (n : Dtype) + 1 + l.length := by ring
    rw [e, h2, div_mul_cancel₀ _ hn]
    ring

/-- In the update branch the loop body acts on the cell `(tsdf, weight)` as `fuse`. -/
theorem IntegrateVoxel_update_eq_fuse (sqrtf : Dtype → Dtype)
    (cam_info vox_info depth_data : Int → Dtype) (z y x : Int) (vol : Volume)
    (hcam : 0 < point_cam cam_info vox_info z y x 2)
    (hpx : 0 ≤ pixel_x cam_info vox_info z y x
      ∧ pixel_x cam_info vox_info z y x < frame_width cam_info)
    (hpy : 0 ≤ pixel_y cam_info vox_info z y x
      ∧ pixel_y cam_info vox_info z y x < frame_height cam_info)
    (hd : 0 ≤ point_depth cam_info vox_info depth_data z y x
      ∧ point_depth cam_info vox_info depth_data z y x ≤ 10)
    (hr : roundf (point_depth cam_info vox_info depth_data z y x) ≠ 0)
    (hdist : point_dist sqrtf cam_info vox_info depth_data z y x > -vox_margin vox_info) :
    ((IntegrateVoxel sqrtf cam_info vox_info depth_data z y x vol).vox_tsdf
        (vox_idx vox_info z y x),
      (IntegrateVoxel sqrtf cam_info vox_info depth_data z y x vol).vox_weight
        (vox_idx vox_info z y x))
      = fuse (vol.vox_tsdf (vox_idx vox_info z y x), vol.vox_weight (vox_idx vox_info z y x))
          (min 1 (point_dist sqrtf cam_info vox_info depth_data z y x
            / vox_margin vox_info)) := by
  obtain ⟨hw, ht⟩ := (IntegrateVoxel_reached sqrtf cam_info vox_info depth_data z y x vol
    hcam hpx hpy hd).2 hr hdist
  simp [fuse, hw, ht]

/-- The tsdf the loop body leaves in its cell stays in `[-1, 1]`. -/
theorem IntegrateVoxel_tsdf_range (sqrtf : Dtype → Dtype)
    (cam_info vox_info depth_data : Int → Dtype) (z y x : Int) (vol : Volume)
    (hm : 0 < vox_margin vox_info)
    (ht : -1 ≤ vol.vox_tsdf (vox_idx vox_info z y x) ∧ vol.vox_tsdf (vox_idx vox_info z y x) ≤ 1)
    (hw : 0 ≤ vol.vox_weight (vox_idx vox_info z y x)) :
    -1 ≤ (IntegrateVoxel sqrtf cam_info vox_info depth_data z y x vol).vox_tsdf
        (vox_idx vox_info z y x)
    ∧ (IntegrateVoxel sqrtf cam_info vox_info depth_data z y x vol).vox_tsdf
        (vox_idx vox_info z y x) ≤ 1 := by
  unfold IntegrateVoxel
  simp only []
  split_ifs with h1 h2 h3 h4 h5
  · simpa [encodeHeight_tsdf] using ht
  · simpa [encodeHeight_tsdf] using ht
  · simpa [encodeHeight_tsdf] using ht
  · simp [setSentinel, store_same]
  · simp only [encodeHeight_tsdf, encodeHeight_weight, store_same]
    have hs1 : min 1 (point_dist sqrtf cam_info vox_info depth_data z y x
        / vox_margin vox_info) ≤ 1 := min_le_left _ _
    have hs2 : -1 ≤ min 1 (point_dist sqrtf cam_info vox_info depth_data z y x
        / vox_margin vox_info) := by
      apply le_min (by norm_num)
      rw [le_div_iff₀ hm]
      linarith
    have hpos : 0 < vol.vox_weight (vox_idx vox_info z y x) + 1 := by linarith
    constructor
    · rw [le_div_iff₀ hpos]
      nlinarith [mul_nonneg hw (by linarith [ht.1] :
        0 ≤ vol.vox_tsdf (vox_idx vox_info z y x) + 1)]
    · rw [div_le_iff₀ hpos]
      nlinarith [mul_nonneg hw (by linarith [ht.2] :
        0 ≤ 1 - vol.vox_tsdf (vox_idx vox_info z y x))]
  · simp [setSentinel, store_same]

/-! ## The one-voxel scene evaluated -/

theorem ex_vox_idx (h : Dtype) : vox_idx (exVox h) 0 0 0 = 0 := by
  simp [vox_idx]

theorem ex_inLaunch (h : Dtype) : VoxelInLaunch (exVox h) 1 1 0 0 0 := by
  simp [VoxelInLaunch, vox_size, exVox, ofList, toInt]

theorem ex_point_cam (h : Dtype) :
    point_cam exCam (exVox h) 0 0 0 0 = 0 ∧ point_cam exCam (exVox h) 0 0 0 1 = 0
      ∧ point_cam exCam (exVox h) 0 0 0 2 = h := by
  simp [point_cam, point_rel, point_base, cam_pose, exCam, exVox, ofList, vox_unit, vox_origin]

theorem ex_pixel (h : Dtype) :
    pixel_x exCam (exVox h) 0 0 0 = 0 ∧ pixel_y exCam (exVox h) 0 0 0 = 0 := by
  have hc := ex_point_cam h
  simp only [pixel_x, pixel_y, hc.1, hc.2.1]
  simp [roundf, cam_K, exCam, ofList]
  norm_num

theorem ex_frame : frame_width exCam = 1 ∧ frame_height exCam = 1 := by
  simp [frame_width, frame_height, exCam, ofList, toInt]

theorem ex_point_depth (h d : Dtype) : point_depth exCam (exVox h) (ofList [d]) 0 0 0 = d := by
  simp [point_depth, ex_pixel, ofList]

/-! ## The claims about `Integrate` -/

/-- C1: per-voxel update rule.  For a voxel visited by the launch whose camera depth is
positive, whose projected pixel is inside the frame and whose measured depth `d` lies in
`[0, 10]` and does not round to `0`, with
`distance = (d - z) * sqrtf (1 + (x/z)^2 + (y/z)^2)`:
if `distance > -margin` the weight after the call is `weight_old + 1` and the tsdf is
`(tsdf_old * weight_old + min 1 (distance / margin)) / (weight_old + 1)`;
otherwise the tsdf is `-1` and the weight is unchanged.  The margin is taken positive and
`weight_old + 1` non-zero, so that the two divisions of the update are by non-zero numbers,
where exact division and the division of the source agree. -/
theorem C1_integrate_update_rule (sqrtf : Dtype → Dtype)
    (cam_info vox_info depth_data : Int → Dtype) (gridDim blockDim z y x : Nat)
    (hv : VoxelInLaunch vox_info gridDim blockDim z y x) (vol : Volume)
    (hcam : 0 < point_cam cam_info vox_info z y x 2)
    (hpx : 0 ≤ pixel_x cam_info vox_info z y x
      ∧ pixel_x cam_info vox_info z y x < frame_width cam_info)
    (hpy : 0 ≤ pixel_y cam_info vox_info z y x
      ∧ pixel_y cam_info vox_info z y x < frame_height cam_info)
    (hd : 0 ≤ point_depth cam_info vox_info depth_data z y x
      ∧ point_depth cam_info vox_info depth_data z y x ≤ 10)
    (hr : roundf (point_depth cam_info vox_info depth_data z y x) ≠ 0)
    (_hm : 0 < vox_margin vox_info)
    (_hw : vol.vox_weight (vox_idx vox_info z y x) + 1 ≠ 0) :
    let idx := vox_idx vox_info z y x
    let xc := point_cam cam_info vox_info z y x 0
    let yc := point_cam cam_info vox_info z y x 1
    let zc := point_cam cam_info vox_info z y x 2
    let d := point_depth cam_info vox_info depth_data z y x
    let margin := vox_margin vox_info
    let distance := (d - zc) * sqrtf (1 + (xc / zc) ^ 2 + (yc / zc) ^ 2)
    let out := IntegrateLaunch sqrtf cam_info vox_info depth_data gridDim blockDim vol
    (distance > -margin →
        out.vox_weight idx = vol.vox_weight idx + 1
        ∧ out.vox_tsdf idx
            = (vol.vox_tsdf idx * vol.vox_weight idx + min 1 (distance / margin))
                / (vol.vox_weight idx + 1))
    ∧ (distance ≤ -margin →
        out.vox_tsdf idx = -1 ∧ out.vox_weight idx = vol.vox_weight idx) := by
  intro idx xc yc zc d margin distance out
  have hr' := IntegrateVoxel_reached sqrtf cam_info vox_info depth_data z y x vol
    hcam hpx hpy hd
  have et := IntegrateLaunch_tsdf sqrtf cam_info vox_info depth_data gridDim blockDim z y x
    hv vol
  have ew := IntegrateLaunch_weight sqrtf cam_info vox_info depth_data gridDim blockDim z y x
    hv vol
  constructor
  · intro hgt
    exact ⟨ew.trans (hr'.2 hr hgt).1, et.trans (hr'.2 hr hgt).2⟩
  · intro hle
    exact ⟨et.trans (hr'.1 (Or.inr hle)).1, ew.trans (hr'.1 (Or.inr hle)).2⟩

/-- Witness for C1: the one-voxel scene at camera depth 1 with measured depth 1 (distance 0,
inside the margin) and prior cell `(1/2, 3)` ends with weight `4` and tsdf `3/8`. -/
theorem C1_integrate_update_rule_witness :
    (IntegrateLaunch (fun _ => 1) exCam (exVox 1) (ofList [1]) 1 1 (exVol (1 / 2) 3)).vox_weight 0
        = 4
    ∧ (IntegrateLaunch (fun _ => 1) exCam (exVox 1) (ofList [1]) 1 1 (exVol (1 / 2) 3)).vox_tsdf 0
        = 3 / 8 := by
  have h := (C1_integrate_update_rule (fun _ => 1) exCam (exVox 1) (ofList [1]) 1 1 0 0 0
    (ex_inLaunch 1) (exVol (1 / 2) 3)
    (by simp [ex_point_cam])
    (by simp [ex_pixel, ex_frame])
    (by simp [ex_pixel, ex_frame])
    (by simp only [Nat.cast_zero, ex_point_depth]; norm_num)
    (by simp only [Nat.cast_zero, ex_point_depth]; norm_num [roundf])
    (by norm_num [vox_margin, exVox, ofList])
    (by simp only [Nat.cast_zero, ex_vox_idx]; norm_num [exVol, ofList])).1
  simp only [Nat.cast_zero, ex_vox_idx, ex_point_cam, ex_point_depth] at h
  have h2 := h (by norm_num [vox_margin, exVox, ofList])
  norm_num [vox_margin, exVox, exVol, ofList] at h2
  exact h2

/-- C2: order-independence of fusion.  Folding the running-mean update over a list of sdf
observations from the empty cell (tsdf 0, weight 0) gives the same cell as folding it over
any permutation of the list; the weight is the number of observations and the tsdf is
their arithmetic mean. -/
theorem C2_fusion_order_independent (l l' : List Dtype) (h : l.Perm l') :
    l.foldl fuse (0, 0) = l'.foldl fuse (0, 0)
    ∧ (l.foldl fuse (0, 0)).2 = l.length
    ∧ (l.foldl fuse (0, 0)).1 = l.sum / l.length := by
  have mean : ∀ m : List Dtype, (m.foldl fuse (0, 0)).2 = m.length
      ∧ (m.foldl fuse (0, 0)).1 = m.sum / m.length := by
    intro m
    have hm := foldl_fuse_invariant m 0 0
    simp only [Nat.cast_zero, zero_add, mul_zero] at hm
    refine ⟨hm.1, ?_⟩
    cases m with
    | nil => simp
    | cons a m =>
      have hpos : ((a :: m).length : Dtype) ≠ 0 := by
        simp only [List.length_cons]; positivity
      rw [eq_div_iff hpos]
      exact hm.2
  refine ⟨?_, (mean l).1, (mean l).2⟩
  apply Prod.ext
  · rw [(mean l).2, (mean l').2, h.sum_eq, h.length_eq]
  · rw [(mean l).1, (mean l').1, h.length_eq]

/-- Witness for C2: the observations `1, -1/2, 1/4` in two orders. -/
theorem C2_fusion_order_independent_witness :
    [1, -1 / 2, 1 / 4].foldl fuse (0, 0) = [1 / 4, 1, -1 / 2].foldl fuse (0, 0) :=
  (C2_fusion_order_independent [1, -1 / 2, 1 / 4] [1 / 4, 1, -1 / 2]
    (@List.perm_append_comm Dtype [1, -1 / 2] [1 / 4])).1

/-- C3: tsdf range invariant.  In a launch whose blocks have at most `vox_size[1]` threads
and whose margin is positive, every cell whose tsdf is in `[-1, 1]` and whose weight is
non-negative before the call has its tsdf in `[-1, 1]` after the call. -/
theorem C3_tsdf_range_invariant (sqrtf : Dtype → Dtype)
    (cam_info vox_info depth_data : Int → Dtype) (gridDim blockDim : Nat)
    (hb : (blockDim : Int) ≤ vox_size vox_info 1) (hm : 0 < vox_margin vox_info)
    (vol : Volume) (k : Int)
    (ht : -1 ≤ vol.vox_tsdf k ∧ vol.vox_tsdf k ≤ 1) (hw : 0 ≤ vol.vox_weight k) :
    -1 ≤ (IntegrateLaunch sqrtf cam_info vox_info depth_data gridDim blockDim vol).vox_tsdf k
    ∧ (IntegrateLaunch sqrtf cam_info vox_info depth_data gridDim blockDim vol).vox_tsdf k
        ≤ 1 := by
  rcases IntegrateLaunch_cell_cases sqrtf cam_info vox_info depth_data gridDim blockDim hb k vol
    with h | ⟨z, y, x, rfl, h⟩
  · have e : (IntegrateLaunch sqrtf cam_info vox_info depth_data gridDim blockDim
        vol).vox_tsdf k = vol.vox_tsdf k := congrArg Prod.fst h
    rw [e]
    exact ht
  · have e : (IntegrateLaunch sqrtf cam_info vox_info depth_data gridDim blockDim
        vol).vox_tsdf (vox_idx vox_info z y x)
        = (IntegrateVoxel sqrtf cam_info vox_info depth_data z y x vol).vox_tsdf
            (vox_idx vox_info z y x) := congrArg Prod.fst h
    rw [e]
    exact IntegrateVoxel_tsdf_range sqrtf cam_info vox_info depth_data z y x vol hm ht hw

/-- Witness for C3: in the one-voxel scene (margin 1) the cell `(1/2, 3)` integrated with
measured depth 1 keeps its tsdf in `[-1, 1]`. -/
theorem C3_tsdf_range_invariant_witness :
    -1 ≤ (IntegrateLaunch (fun _ => 1) exCam (exVox 1) (ofList [1]) 1 1
        (exVol (1 / 2) 3)).vox_tsdf 0
    ∧ (IntegrateLaunch (fun _ => 1) exCam (exVox 1) (ofList [1]) 1 1
        (exVol (1 / 2) 3)).vox_tsdf 0 ≤ 1 :=
  C3_tsdf_range_invariant (fun _ => 1) exCam (exVox 1) (ofList [1]) 1 1
    (ex_inLaunch 1).1 (by norm_num [vox_margin, exVox, ofList]) (exVol (1 / 2) 3) 0
    (by norm_num [exVol, ofList]) (by norm_num [exVol, ofList])

/-- C4: weight monotonicity.  In a launch whose blocks have at most `vox_size[1]` threads,
the weight of every cell after the call is at least its weight before the call: it is
either unchanged or larger by exactly `1`. -/
theorem C4_weight_monotone (sqrtf : Dtype → Dtype)
    (cam_info vox_info depth_data : Int → Dtype) (gridDim blockDim : Nat)
    (hb : (blockDim : Int) ≤ vox_size vox_info 1) (vol : Volume) (k : Int) :
    vol.vox_weight k
        ≤ (IntegrateLaunch sqrtf cam_info vox_info depth_data gridDim blockDim vol).vox_weight k
    ∧ ((IntegrateLaunch sqrtf cam_info vox_info depth_data gridDim blockDim vol).vox_weight k
          = vol.vox_weight k
      ∨ (IntegrateLaunch sqrtf cam_info vox_info depth_data gridDim blockDim vol).vox_weight k
          = vol.vox_weight k + 1) := by
  have key : (IntegrateLaunch sqrtf cam_info vox_info depth_data gridDim blockDim
        vol).vox_weight k = vol.vox_weight k
      ∨ (IntegrateLaunch sqrtf cam_info vox_info depth_data gridDim blockDim
        vol).vox_weight k = vol.vox_weight k + 1 := by
    rcases IntegrateLaunch_cell_cases sqrtf cam_info vox_info depth_data gridDim blockDim hb k
      vol with h | ⟨z, y, x, rfl, h⟩
    · exact Or.inl (congrArg (fun c => c.2.1) h)
    · have hw : (IntegrateLaunch sqrtf cam_info vox_info depth_data gridDim blockDim
          vol).vox_weight (vox_idx vox_info z y x)
          = (IntegrateVoxel sqrtf cam_info vox_info depth_data z y x vol).vox_weight
              (vox_idx vox_info z y x) := congrArg (fun c => c.2.1) h
      rw [hw]
      exact IntegrateVoxel_weight_cases sqrtf cam_info vox_info depth_data z y x vol
  refine ⟨?_, key⟩
  rcases key with h | h <;> rw [h]
  linarith

/-- Witness for C4: the weight `3` of the one-voxel scene does not decrease. -/
theorem C4_weight_monotone_witness :
    (3 : Dtype) ≤ (IntegrateLaunch (fun _ => 1) exCam (exVox 1) (ofList [1]) 1 1
        (exVol (1 / 2) 3)).vox_weight 0 := by
  have h := (C4_weight_monotone (fun _ => 1) exCam (exVox 1) (ofList [1]) 1 1
    (ex_inLaunch 1).1 (exVol (1 / 2) 3) 0).1
  simpa [exVol, ofList] using h

/-- C5: sentinel precedence.  A visited voxel with positive camera depth whose projected
pixel is inside the frame and whose measured depth lies in `[0, 10]` and rounds to `0` ends
the call with tsdf `-1` and its prior weight, whatever its prior tsdf and weight. -/
theorem C5_sentinel_precedence (sqrtf : Dtype → Dtype)
    (cam_info vox_info depth_data : Int → Dtype) (gridDim blockDim z y x : Nat)
    (hv : VoxelInLaunch vox_info gridDim blockDim z y x) (vol : Volume)
    (hcam : 0 < point_cam cam_info vox_info z y x 2)
    (hpx : 0 ≤ pixel_x cam_info vox_info z y x
      ∧ pixel_x cam_info vox_info z y x < frame_width cam_info)
    (hpy : 0 ≤ pixel_y cam_info vox_info z y x
      ∧ pixel_y cam_info vox_info z y x < frame_height cam_info)
    (hd : 0 ≤ point_depth cam_info vox_info depth_data z y x
      ∧ point_depth cam_info vox_info depth_data z y x ≤ 10)
    (hr : roundf (point_depth cam_info vox_info depth_data z y x) = 0) :
    (IntegrateLaunch sqrtf cam_info vox_info depth_data gridDim blockDim vol).vox_tsdf
        (vox_idx vox_info z y x) = -1
    ∧ (IntegrateLaunch sqrtf cam_info vox_info depth_data gridDim blockDim vol).vox_weight
        (vox_idx vox_info z y x) = vol.vox_weight (vox_idx vox_info z y x) := by
  have hr' := (IntegrateVoxel_reached sqrtf cam_info vox_info depth_data z y x vol
    hcam hpx hpy hd).1 (Or.inl hr)
  exact ⟨(IntegrateLaunch_tsdf sqrtf cam_info vox_info depth_data gridDim blockDim z y x
      hv vol).trans hr'.1,
    (IntegrateLaunch_weight sqrtf cam_info vox_info depth_data gridDim blockDim z y x
      hv vol).trans hr'.2⟩

/-- Witness for C5: measured depth `2/5` rounds to `0`; the prior cell `(1/2, 3)` ends with
tsdf `-1` and weight `3`. -/
theorem C5_sentinel_precedence_witness :
    (IntegrateLaunch (fun _ => 1) exCam (exVox 1) (ofList [2 / 5]) 1 1
        (exVol (1 / 2) 3)).vox_tsdf 0 = -1
    ∧ (IntegrateLaunch (fun _ => 1) exCam (exVox 1) (ofList [2 / 5]) 1 1
        (exVol (1 / 2) 3)).vox_weight 0 = 3 := by
  have h := C5_sentinel_precedence (fun _ => 1) exCam (exVox 1) (ofList [2 / 5]) 1 1 0 0 0
    (ex_inLaunch 1) (exVol (1 / 2) 3)
    (by simp [ex_point_cam])
    (by simp [ex_pixel, ex_frame])
    (by simp [ex_pixel, ex_frame])
    (by simp only [Nat.cast_zero, ex_point_depth]; norm_num)
    (by simp only [Nat.cast_zero, ex_point_depth]; norm_num [roundf])
  simp only [Nat.cast_zero, ex_vox_idx] at h
  simpa [exVol, ofList] using h

/-- C6 as stated fails: with the height output requested, the only voxel of the one-voxel
scene placed at camera depth `0` (so behind the camera) has its height cell overwritten,
`0` becoming `2/25`.  Hence it is not true that every skipped voxel keeps tsdf, weight and
height. -/
theorem C6_skip_keeps_height_counterexample :
    ¬ ∀ (sqrtf : Dtype → Dtype) (cam_info vox_info depth_data : Int → Dtype)
        (gridDim blockDim z y x : Nat) (vol : Volume),
        VoxelInLaunch vox_info gridDim blockDim z y x →
        (point_cam cam_info vox_info z y x 2 ≤ 0
          ∨ pixel_x cam_info vox_info z y x < 0
          ∨ pixel_x cam_info vox_info z y x ≥ frame_width cam_info
          ∨ pixel_y cam_info vox_info z y x < 0
          ∨ pixel_y cam_info vox_info z y x ≥ frame_height cam_info) →
        (IntegrateLaunch sqrtf cam_info vox_info depth_data gridDim blockDim vol).vox_tsdf
            (vox_idx vox_info z y x) = vol.vox_tsdf (vox_idx vox_info z y x)
        ∧ (IntegrateLaunch sqrtf cam_info vox_info depth_data gridDim blockDim vol).vox_weight
            (vox_idx vox_info z y x) = vol.vox_weight (vox_idx vox_info z y x)
        ∧ (IntegrateLaunch sqrtf cam_info vox_info depth_data gridDim blockDim
              vol).vox_height.map (fun h => h (vox_idx vox_info z y x))
            = vol.vox_height.map (fun h => h (vox_idx vox_info z y x)) := by
  intro hall
  have h := (hall (fun _ => 1) exCam (exVox 0) (ofList [1]) 1 1 0 0 0 (exVol 0 0)
    (ex_inLaunch 0) (Or.inl (by simp [ex_point_cam]))).2.2
  rw [IntegrateLaunch_height _ _ _ _ _ _ _ _ _ (ex_inLaunch 0)] at h
  simp only [Nat.cast_zero, ex_vox_idx] at h
  simp [exVol, ofList, height_val, point_base, vox_unit, vox_origin, exVox] at h
  norm_num at h

/-- C6, amended: a visited voxel that is behind the camera (camera depth `<= 0`) or whose
projected pixel is outside the frame keeps its tsdf and weight; a height buffer, when one
is passed, receives at that voxel `min 1 (max ((y * vox_unit + origin[2] + 0.2) / 2.5) 0)`
as for every other voxel, and no height is written when none is passed. -/
theorem C6_skip_keeps_tsdf_weight (sqrtf : Dtype → Dtype)
    (cam_info vox_info depth_data : Int → Dtype) (gridDim blockDim z y x : Nat)
    (hv : VoxelInLaunch vox_info gridDim blockDim z y x) (vol : Volume)
    (hskip : point_cam cam_info vox_info z y x 2 ≤ 0
      ∨ pixel_x cam_info vox_info z y x < 0
      ∨ pixel_x cam_info vox_info z y x ≥ frame_width cam_info
      ∨ pixel_y cam_info vox_info z y x < 0
      ∨ pixel_y cam_info vox_info z y x ≥ frame_height cam_info) :
    (IntegrateLaunch sqrtf cam_info vox_info depth_data gridDim blockDim vol).vox_tsdf
        (vox_idx vox_info z y x) = vol.vox_tsdf (vox_idx vox_info z y x)
    ∧ (IntegrateLaunch sqrtf cam_info vox_info depth_data gridDim blockDim vol).vox_weight
        (vox_idx vox_info z y x) = vol.vox_weight (vox_idx vox_info z y x)
    ∧ (IntegrateLaunch sqrtf cam_info vox_info depth_data gridDim blockDim vol).vox_height.map
          (fun h => h (vox_idx vox_info z y x))
        = vol.vox_height.map (fun _ =>
            min 1 (max ((((y : Int) : Dtype) * vox_info 0 + vox_info 7 + 2 / 10) / (25 / 10)) 0))
      := by
  have hs := IntegrateVoxel_skip sqrtf cam_info vox_info depth_data z y x vol
    (by rcases hskip with h | h
        · exact Or.inl h
        · exact Or.inr (Or.inl h))
  refine ⟨?_, ?_, ?_⟩
  · rw [IntegrateLaunch_tsdf _ _ _ _ _ _ _ _ _ hv, hs.1]
  · rw [IntegrateLaunch_weight _ _ _ _ _ _ _ _ _ hv, hs.2]
  · rw [IntegrateLaunch_height _ _ _ _ _ _ _ _ _ hv]
    simp [height_val, point_base, vox_unit, vox_origin]

/-- Witness for C6 amended: the voxel at camera depth `0` keeps the cell `(1/2, 3)`. -/
theorem C6_skip_keeps_tsdf_weight_witness :
    (IntegrateLaunch (fun _ => 1) exCam (exVox 0) (ofList [1]) 1 1
        (exVol (1 / 2) 3)).vox_tsdf 0 = 1 / 2
    ∧ (IntegrateLaunch (fun _ => 1) exCam (exVox 0) (ofList [1]) 1 1
        (exVol (1 / 2) 3)).vox_weight 0 = 3 := by
  have h := C6_skip_keeps_tsdf_weight (fun _ => 1) exCam (exVox 0) (ofList [1]) 1 1 0 0 0
    (ex_inLaunch 0) (exVol (1 / 2) 3) (Or.inl (by simp [ex_point_cam]))
  simp only [Nat.cast_zero, ex_vox_idx] at h
  exact ⟨by simpa [exVol, ofList] using h.1, by simpa [exVol, ofList] using h.2.1⟩

/-! ## Reading the stream -/

theorem IFStream.read_good_ge (bs : List uchar) (n : Nat) (h : n ≤ bs.length) :
    IFStream.read ⟨bs, false, false⟩ n = (bs.take n, ⟨bs.drop n, false, false⟩) := by
  simp [IFStream.read, h]

theorem IFStream.read_good_lt (bs : List uchar) (n : Nat) (h : bs.length < n) :
    IFStream.read ⟨bs, false, false⟩ n = (bs, ⟨[], true, true⟩) := by
  simp [IFStream.read, Nat.not_le.2 h]

/-- Reading fields that lie wholly inside a prefix does not depend on what follows it. -/
theorem readFields_append (n : Nat) (bs tl : List uchar) (h : 4 * n ≤ bs.length) :
    readFields n ⟨bs ++ tl, false, false⟩
      = ((readFields n ⟨bs, false, false⟩).1, ⟨bs.drop (4 * n) ++ tl, false, false⟩) := by
  induction n generalizing bs with
  | zero => simp [readFields]
  | succ n ih =>
    have h4 : 4 ≤ bs.length := by omega
    have h4' : 4 ≤ (bs ++ tl).length := by simp; omega
    simp only [readFields, sizeofDtype, IFStream.read_good_ge _ _ h4,
      IFStream.read_good_ge _ _ h4']
    have e1 : (bs ++ tl).drop 4 = bs.drop 4 ++ tl := by
      rw [List.drop_append_of_le_length h4]
    have e2 : (bs ++ tl).take 4 = bs.take 4 := by
      rw [List.take_append_of_le_length h4]
    rw [e1, e2, ih (bs.drop 4) (by simp; omega)]
    simp only [List.drop_drop]
    have e3 : 4 + 4 * n = 4 * (n + 1) := by ring
    rw [e3]

theorem wordsOf_short (bs : List uchar) (h : bs.length < 4) : wordsOf bs = [] := by
  match bs, h with
  | [], _ => rfl
  | [_], _ => rfl
  | [_, _], _ => rfl
  | [_, _, _], _ => rfl
  | _ :: _ :: _ :: _ :: _, h => simp at h; omega

/-- On a good stream the reading loop ends, having collected the complete words. -/
theorem readRLE_good (fuel : Nat) (bs : List uchar) (acc : List Nat)
    (h : bs.length / 4 < fuel) :
    readRLE fuel ⟨bs, false, false⟩ acc = some (acc ++ wordsOf bs) := by
  induction fuel generalizing bs acc with
  | zero => omega
  | succ k ih =>
    by_cases h4 : 4 ≤ bs.length
    · match bs, h4 with
      | b0 :: b1 :: b2 :: b3 :: rest, _ =>
        have hk : rest.length / 4 < k := by
          simp only [List.length_cons] at h
          omega
        have hr : IFStream.read ⟨b0 :: b1 :: b2 :: b3 :: rest, false, false⟩ 4
            = ([b0, b1, b2, b3], ⟨rest, false, false⟩) := by
          rw [IFStream.read_good_ge _ _ (by simp)]
          rfl
        rw [readRLE]
        simp only [Bool.false_eq_true, if_false, hr, Bool.not_false, if_true]
        rw [ih rest _ hk]
        simp [wordsOf]
    · have hlt : bs.length < 4 := by omega
      rw [readRLE]
      simp only [Bool.false_eq_true, if_false, IFStream.read_good_lt _ _ hlt, Bool.not_true]
      rw [readRLE.eq_def]
      simp [wordsOf_short _ hlt]

theorem pairsOf_wordsOf : ∀ bs : List uchar, pairsOf (wordsOf bs) = recordsOf bs
  | b0 :: b1 :: b2 :: b3 :: b4 :: b5 :: b6 :: b7 :: rest => by
    simp only [wordsOf, pairsOf, recordsOf]
    rw [pairsOf_wordsOf rest]
  | [] => rfl
  | [_] => rfl
  | [_, _] => rfl
  | [_, _, _] => rfl
  | [_, _, _, _] => rfl
  | [_, _, _, _, _] => rfl
  | [_, _, _, _, _, _] => rfl
  | [_, _, _, _, _, _, _] => rfl

/-- The outer loop, which indexes `scene_vox_RLE` at `2 i` and `2 i + 1`, runs the inner
loop once for each complete pair, in order. -/
theorem expandRLE_eq_foldl (cm : List Int) :
    ∀ (rle : List Nat) (st : LabelState),
      expandRLE cm rle st = (pairsOf rle).foldl (fun st p => expandRun cm p.1 p.2 st) st
  | [], _ => by simp [expandRLE, pairsOf]
  | [_], _ => by simp [expandRLE, pairsOf]
  | a :: b :: rest, st => by
    have hlen : (a :: b :: rest).length / 2 = rest.length / 2 + 1 := by
      simp only [List.length_cons]; omega
    have hrec := expandRLE_eq_foldl cm rest (expandRun cm a b st)
    unfold expandRLE at hrec ⊢
    rw [hlen, List.range_succ_eq_map, List.foldl_cons, List.foldl_map]
    simp only [pairsOf, List.foldl_cons]
    rw [← hrec]
    have e0 : (a :: b :: rest).getD (0 * 2) 0 = a := rfl
    have e1 : (a :: b :: rest).getD (0 * 2 + 1) 0 = b := rfl
    rw [e0, e1]
    have e2 : ∀ i : Nat, (a :: b :: rest).getD ((i + 1) * 2) 0 = rest.getD (i * 2) 0 := by
      intro i
      rw [show (i + 1) * 2 = (i * 2) + 1 + 1 by ring]
      rfl
    have e3 : ∀ i : Nat, (a :: b :: rest).getD ((i + 1) * 2 + 1) 0
        = rest.getD (i * 2 + 1) 0 := by
      intro i
      rw [show (i + 1) * 2 + 1 = (i * 2 + 1) + 1 + 1 by ring]
      rfl
    simp only [Nat.succ_eq_add_one, e2, e3]

/-! ## Expanding the runs -/

theorem expandRun_eq_foldl (cm : List Int) (v : Nat) (c : Nat) (st : LabelState) :
    expandRun cm v c st = (List.replicate c v).foldl (fun st v => writeVoxel cm v st) st := by
  induction c generalizing st with
  | zero => rfl
  | succ c ih => simp only [expandRun, List.replicate_succ, List.foldl_cons, ih]

/-- Expanding the records one run after the other writes the raw labels one by one. -/
theorem foldl_expandRun_eq (cm : List Int) (rs : List (Nat × Nat)) (st : LabelState) :
    rs.foldl (fun st p => expandRun cm p.1 p.2 st) st
      = (expandRecords rs).foldl (fun st v => writeVoxel cm v st) st := by
  induction rs generalizing st with
  | nil => rfl
  | cons p rs ih =>
    obtain ⟨v, c⟩ := p
    simp only [List.foldl_cons, expandRecords, List.foldl_append]
    rw [ih, expandRun_eq_foldl]

theorem foldl_writeVoxel_idx (cm : List Int) (raw : List Nat) (st : LabelState) :
    (raw.foldl (fun st v => writeVoxel cm v st) st).vox_idx = st.vox_idx + raw.length := by
  induction raw generalizing st with
  | nil => simp
  | cons v raw ih =>
    simp only [List.foldl_cons, List.length_cons]
    rw [ih]
    have hidx : (writeVoxel cm v st).vox_idx = st.vox_idx + 1 := rfl
    rw [hidx]
    push_cast
    ring

/-- Writing raw labels one by one from the cursor fills exactly the cells from the cursor
up to the cursor plus the number of labels, cell `vox_idx + j` with the label `j`. -/
theorem foldl_writeVoxel_cells (cm : List Int) (raw : List Nat) (st : LabelState) (i : Int) :
    ((raw.foldl (fun st v => writeVoxel cm v st) st).segmentation_label_fullsize i
        = if st.vox_idx ≤ i ∧ i < st.vox_idx + raw.length then
            ((cm.getD (raw.getD (i - st.vox_idx).toNat 0) 0 : Int) : Dtype)
          else st.segmentation_label_fullsize i)
    ∧ ((raw.foldl (fun st v => writeVoxel cm v st) st).occupancy_label_fullsize i
        = if st.vox_idx ≤ i ∧ i < st.vox_idx + raw.length then
            (if raw.getD (i - st.vox_idx).toNat 0 > 0 then 1 else 0)
          else st.occupancy_label_fullsize i) := by
  induction raw generalizing st with
  | nil =>
    have : ¬ (st.vox_idx ≤ i ∧ i < st.vox_idx + (([] : List Nat).length : Int)) := by
      simp only [List.length_nil, Nat.cast_zero, add_zero]; omega
    simp only [List.foldl_nil, this, if_false, and_self]
  | cons v raw ih =>
    simp only [List.foldl_cons]
    obtain ⟨ih1, ih2⟩ := ih (writeVoxel cm v st)
    rw [ih1, ih2]
    have hidx : (writeVoxel cm v st).vox_idx = st.vox_idx + 1 := rfl
    simp only [hidx, List.length_cons, Nat.cast_add, Nat.cast_one]
    by_cases h0 : i = st.vox_idx
    · subst h0
      have hn : ¬ (st.vox_idx + 1 ≤ st.vox_idx
          ∧ st.vox_idx < st.vox_idx + 1 + (raw.length : Int)) := by omega
      have hy : st.vox_idx ≤ st.vox_idx
          ∧ st.vox_idx < st.vox_idx + ((raw.length : Int) + 1) := by omega
      simp only [hn, hy, if_false, if_true, sub_self, Int.toNat_zero, List.getD_cons_zero,
        and_self]
      simp [writeVoxel, store_same]
    · by_cases h1 : st.vox_idx + 1 ≤ i ∧ i < st.vox_idx + 1 + (raw.length : Int)
      · have hy : st.vox_idx ≤ i ∧ i < st.vox_idx + ((raw.length : Int) + 1) := by omega
        have hk : (i - st.vox_idx).toNat = (i - (st.vox_idx + 1)).toNat + 1 := by omega
        simp only [h1, hy, and_self, if_true, hk, List.getD_cons_succ]
      · have hy : ¬ (st.vox_idx ≤ i ∧ i < st.vox_idx + ((raw.length : Int) + 1)) := by omega
        simp only [h1, hy, if_false]
        simp [writeVoxel, store_other _ _ _ _ h0]

theorem expandRecords_length (rs : List (Nat × Nat)) :
    (expandRecords rs).length = (rs.map Prod.snd).sum := by
  induction rs with
  | nil => rfl
  | cons p rs ih =>
    obtain ⟨v, c⟩ := p
    simp [expandRecords, ih]

/-- Every raw label of the expansion is the value of one of the records. -/
theorem mem_expandRecords (rs : List (Nat × Nat)) (v : Nat) (h : v ∈ expandRecords rs) :
    ∃ p ∈ rs, p.1 = v := by
  induction rs with
  | nil => simp [expandRecords] at h
  | cons p rs ih =>
    obtain ⟨a, c⟩ := p
    simp only [expandRecords, List.mem_append] at h
    rcases h with h | h
    · exact ⟨(a, c), List.mem_cons_self _ _, ((List.mem_replicate.1 h).2).symm⟩
    · obtain ⟨q, hq, hv⟩ := ih h
      exact ⟨q, List.mem_cons_of_mem _ hq, hv⟩

/-! ## The records of a stream -/

theorem le32_bytes32 (n : Nat) (h : n < 2 ^ 32) : le32 (bytes32 n) = n := by
  simp only [le32, bytes32, List.foldr_cons, List.foldr_nil, Fin.ofNat, Fin.val_mk]
  omega

theorem recordsOf_encodeRecords (rs : List (Nat × Nat))
    (h : ∀ p ∈ rs, p.1 < 2 ^ 32 ∧ p.2 < 2 ^ 32) : recordsOf (encodeRecords rs) = rs := by
  induction rs with
  | nil => rfl
  | cons p rs ih =>
    obtain ⟨v, c⟩ := p
    have hv := (h (v, c) (List.mem_cons_self _ _)).1
    have hc := (h (v, c) (List.mem_cons_self _ _)).2
    have e : encodeRecords ((v, c) :: rs)
        = Fin.ofNat v :: Fin.ofNat (v / 2 ^ 8) :: Fin.ofNat (v / 2 ^ 16)
          :: Fin.ofNat (v / 2 ^ 24) :: Fin.ofNat c :: Fin.ofNat (c / 2 ^ 8)
          :: Fin.ofNat (c / 2 ^ 16) :: Fin.ofNat (c / 2 ^ 24) :: encodeRecords rs := rfl
    rw [e, recordsOf, ih (fun p hp => h p (List.mem_cons_of_mem _ hp))]
    have e1 := le32_bytes32 v hv
    have e2 := le32_bytes32 c hc
    simp only [bytes32] at e1 e2
    rw [e1, e2]

theorem recordsOf_length : ∀ bs : List uchar, (recordsOf bs).length = bs.length / 8
  | b0 :: b1 :: b2 :: b3 :: b4 :: b5 :: b6 :: b7 :: rest => by
    simp only [recordsOf, List.length_cons, recordsOf_length rest]
    omega
  | [] => by simp [recordsOf]
  | [_] => by simp [recordsOf]
  | [_, _] => by simp [recordsOf]
  | [_, _, _] => by simp [recordsOf]
  | [_, _, _, _] => by simp [recordsOf]
  | [_, _, _, _, _] => by simp [recordsOf]
  | [_, _, _, _, _, _] => by simp [recordsOf]
  | [_, _, _, _, _, _, _] => by simp [recordsOf]

theorem encodeRecords_length (rs : List (Nat × Nat)) :
    (encodeRecords rs).length = 8 * rs.length := by
  induction rs with
  | nil => rfl
  | cons p rs ih =>
    obtain ⟨v, c⟩ := p
    simp only [encodeRecords, bytes32, List.length_append, List.length_cons, List.length_nil, ih]
    omega

/-- Dropping the bytes after the last complete record does not change the records. -/
theorem recordsOf_take : ∀ bs : List uchar,
    recordsOf (bs.take (8 * (bs.length / 8))) = recordsOf bs
  | b0 :: b1 :: b2 :: b3 :: b4 :: b5 :: b6 :: b7 :: rest => by
    have e : 8 * ((b0 :: b1 :: b2 :: b3 :: b4 :: b5 :: b6 :: b7 :: rest).length / 8)
        = 8 * (rest.length / 8) + 1 + 1 + 1 + 1 + 1 + 1 + 1 + 1 := by
      simp only [List.length_cons]; omega
    rw [e]
    simp only [List.take_succ_cons, recordsOf, recordsOf_take rest]
  | [] => by simp [recordsOf]
  | [_] => by simp [recordsOf]
  | [_, _] => by simp [recordsOf]
  | [_, _, _] => by simp [recordsOf]
  | [_, _, _, _] => by simp [recordsOf]
  | [_, _, _, _, _] => by simp [recordsOf]
  | [_, _, _, _, _, _] => by simp [recordsOf]
  | [_, _, _, _, _, _, _] => by simp [recordsOf]

/-- On a stream with a complete 76-byte header the decoder finishes, and its label volumes
are the given ones overwritten, from cell 0 on, with the raw labels of the complete
records that follow the header. -/
theorem ReadVoxLabel_good (fuel : Nat) (hdr body : List uchar) (hhdr : hdr.length = 76)
    (hfuel : body.length / 4 < fuel) (occ : Int → Dtype) (cm : List Int)
    (seg : Int → Dtype) :
    ReadVoxLabel fuel (IFStream.ofBytes (hdr ++ body)) occ cm seg
      = some
        ⟨(readFields 3 ⟨hdr, false, false⟩).1,
         (readFields 16 ⟨hdr.drop 12, false, false⟩).1,
         ((expandRecords (recordsOf body)).foldl (fun st v => writeVoxel cm v st)
            ⟨0, occ, seg⟩).occupancy_label_fullsize,
         ((expandRecords (recordsOf body)).foldl (fun st v => writeVoxel cm v st)
            ⟨0, occ, seg⟩).segmentation_label_fullsize⟩ := by
  have h1 := readFields_append 3 hdr body (by omega)
  have h2 := readFields_append 16 (hdr.drop 12) body (by simp; omega)
  have h3 : (hdr.drop 12).drop (4 * 16) = [] := by
    rw [List.drop_drop]
    exact List.drop_of_length_le (by omega)
  rw [h3, List.nil_append] at h2
  unfold ReadVoxLabel IFStream.ofBytes
  simp only [h1, h2, readRLE_good fuel body [] hfuel, List.nil_append]
  rw [expandRLE_eq_foldl, pairsOf_wordsOf, foldl_expandRun_eq]

/-! ## The claims about `ReadVoxLabel` -/

/-- C7: run-length decode correctness.  For a stream made of a complete header and complete
`(value, count)` records whose values index the class map, `ReadVoxLabel` finishes and,
for every index `i` below the sum of the counts, with `v` the raw label at position `i` of
the concatenation of `count` copies of each record's value, the semantic label at `i` is
`ClassMap[v]` and the occupancy at `i` is `1` if `v > 0` and `0` otherwise. -/
theorem C7_rle_decode_correct (fuel : Nat) (hdr : List uchar) (hhdr : hdr.length = 76)
    (rs : List (Nat × Nat)) (hword : ∀ p ∈ rs, p.1 < 2 ^ 32 ∧ p.2 < 2 ^ 32)
    (cm : List Int) (hvalid : ∀ p ∈ rs, p.1 < cm.length)
    (hfuel : 2 * rs.length < fuel) (occ seg : Int → Dtype) :
    ∃ out, ReadVoxLabel fuel (IFStream.ofBytes (hdr ++ encodeRecords rs)) occ cm seg = some out
      ∧ (expandRecords rs).length = (rs.map Prod.snd).sum
      ∧ ∀ (i v : Nat), (expandRecords rs)[i]? = some v →
          (∃ c : Int, cm[v]? = some c ∧ out.segmentation_label_fullsize i = (c : Dtype))
          ∧ out.occupancy_label_fullsize i = if v > 0 then 1 else 0 := by
  have hf : (encodeRecords rs).length / 4 < fuel := by
    rw [encodeRecords_length]; omega
  refine ⟨_, ReadVoxLabel_good fuel hdr (encodeRecords rs) hhdr hf occ cm seg,
    expandRecords_length rs, ?_⟩
  intro i v hiv
  rw [recordsOf_encodeRecords rs hword]
  obtain ⟨hi, hget⟩ := List.getElem?_eq_some.1 hiv
  have hcell := foldl_writeVoxel_cells cm (expandRecords rs) ⟨0, occ, seg⟩ (i : Int)
  have hin : (0 : Int) ≤ (i : Int) ∧ (i : Int) < 0 + ((expandRecords rs).length : Int) := by
    omega
  have hgd : (expandRecords rs).getD i 0 = v := by
    rw [List.getD_eq_getElem?_getD, hiv]; rfl
  simp only [hin, and_self, if_true, sub_zero, Int.toNat_ofNat, hgd] at hcell
  obtain ⟨p, hp, hpv⟩ := mem_expandRecords rs v (hget ▸ List.getElem_mem _)
  have hv : v < cm.length := hpv ▸ hvalid p hp
  refine ⟨⟨cm[v], List.getElem?_eq_getElem hv, ?_⟩, hcell.2⟩
  refine hcell.1.trans ?_
  rw [List.getD_eq_getElem?_getD, List.getElem?_eq_getElem hv]
  rfl

/-- Witness for C7: the records `(2, 3), (0, 1)` under the class map `[10, 11, 12]` give the
labels `12, 12, 12, 10` and the occupancies `1, 1, 1, 0`. -/
theorem C7_rle_decode_correct_witness :
    ∃ out, ReadVoxLabel 5 (IFStream.ofBytes (List.replicate 76 0 ++ encodeRecords [(2, 3), (0, 1)]))
        (fun _ => 7) [10, 11, 12] (fun _ => 7) = some out
      ∧ out.segmentation_label_fullsize 0 = 12 ∧ out.occupancy_label_fullsize 0 = 1
      ∧ out.segmentation_label_fullsize 3 = 10 ∧ out.occupancy_label_fullsize 3 = 0 := by
  obtain ⟨out, hout, _, hcells⟩ := C7_rle_decode_correct 5 (List.replicate 76 0) (by simp)
    [(2, 3), (0, 1)] (by simp) [10, 11, 12] (by simp) (by simp) (fun _ => 7) (fun _ => 7)
  refine ⟨out, hout, ?_⟩
  obtain ⟨⟨c0, hc0, hs0⟩, ho0⟩ := hcells 0 2 rfl
  obtain ⟨⟨c3, hc3, hs3⟩, ho3⟩ := hcells 3 0 rfl
  simp at hc0 hc3
  subst hc0 hc3
  simp at hs0 hs3 ho0 ho3
  exact ⟨hs0, ho0, hs3, ho3⟩

/-- C8 as stated fails: the decoder has no destination length and no error outcome.  For a
destination of 2 voxels holding `7`, the stream with the single record `(1, 1)` (sum of
counts 1 < 2) is decoded to the end and leaves voxel 1 unfilled; the stream with the single
record `(1, 3)` (sum of counts 3 > 2) is decoded to the end and writes cell 2, past the end
of the destination. -/
theorem C8_no_decode_error_counterexample :
    (∃ out, ReadVoxLabel 3 (IFStream.ofBytes (List.replicate 76 0 ++ encodeRecords [(1, 1)]))
        (fun _ => 7) [0, 5] (fun _ => 7) = some out
      ∧ ([(1, 1)].map Prod.snd).sum < 2
      ∧ out.segmentation_label_fullsize 1 = 7 ∧ out.occupancy_label_fullsize 1 = 7)
    ∧ (∃ out, ReadVoxLabel 3 (IFStream.ofBytes (List.replicate 76 0 ++ encodeRecords [(1, 3)]))
        (fun _ => 7) [0, 5] (fun _ => 7) = some out
      ∧ 2 < ([(1, 3)].map Prod.snd).sum
      ∧ out.segmentation_label_fullsize 2 = 5 ∧ out.occupancy_label_fullsize 2 = 1) := by
  constructor
  · refine ⟨_, ReadVoxLabel_good 3 (List.replicate 76 0) (encodeRecords [(1, 1)]) (by simp)
      (by simp [encodeRecords_length]) _ _ _, by simp, ?_, ?_⟩ <;>
    · rw [recordsOf_encodeRecords _ (by simp)]
      simp [expandRecords, writeVoxel, store]
  · refine ⟨_, ReadVoxLabel_good 3 (List.replicate 76 0) (encodeRecords [(1, 3)]) (by simp)
      (by simp [encodeRecords_length]) _ _ _, by simp, ?_, ?_⟩ <;>
    · rw [recordsOf_encodeRecords _ (by simp)]
      simp [expandRecords, List.replicate, writeVoxel, store]

/-- C8, amended: the decoder takes no destination length and has no error outcome.  For
every stream made of a complete header and complete records it finishes, having written
exactly the cells `0 .. sum of counts - 1`: each of them holds the decoded occupancy (and
the class of its raw label, when the class map has one), and every other cell keeps its
prior contents. -/
theorem C8_decoder_writes_sum_of_counts (fuel : Nat) (hdr : List uchar)
    (hhdr : hdr.length = 76) (rs : List (Nat × Nat))
    (hword : ∀ p ∈ rs, p.1 < 2 ^ 32 ∧ p.2 < 2 ^ 32) (cm : List Int)
    (hfuel : 2 * rs.length < fuel) (occ seg : Int → Dtype) :
    ∃ out, ReadVoxLabel fuel (IFStream.ofBytes (hdr ++ encodeRecords rs)) occ cm seg = some out
      ∧ (∀ i : Int, (0 ≤ i ∧ i < (((rs.map Prod.snd).sum : Nat) : Int)) →
          ∃ v, (expandRecords rs)[i.toNat]? = some v
            ∧ out.occupancy_label_fullsize i = (if v > 0 then 1 else 0)
            ∧ ∀ c : Int, cm[v]? = some c → out.segmentation_label_fullsize i = (c : Dtype))
      ∧ (∀ i : Int, ¬ (0 ≤ i ∧ i < (((rs.map Prod.snd).sum : Nat) : Int)) →
          out.occupancy_label_fullsize i = occ i
            ∧ out.segmentation_label_fullsize i = seg i) := by
  have hf : (encodeRecords rs).length / 4 < fuel := by
    rw [encodeRecords_length]; omega
  refine ⟨_, ReadVoxLabel_good fuel hdr (encodeRecords rs) hhdr hf occ cm seg, ?_, ?_⟩
  · intro i hi
    rw [← expandRecords_length] at hi
    have hlt : i.toNat < (expandRecords rs).length := by omega
    refine ⟨(expandRecords rs)[i.toNat], List.getElem?_eq_getElem hlt, ?_⟩
    rw [recordsOf_encodeRecords rs hword]
    have hcell := foldl_writeVoxel_cells cm (expandRecords rs) ⟨0, occ, seg⟩ i
    have hin : (0 : Int) ≤ i ∧ i < 0 + ((expandRecords rs).length : Int) := by omega
    have hgd : (expandRecords rs).getD i.toNat 0 = (expandRecords rs)[i.toNat] := by
      rw [List.getD_eq_getElem?_getD, List.getElem?_eq_getElem hlt]; rfl
    simp only [hin, and_self, if_true, sub_zero, hgd] at hcell
    refine ⟨hcell.2, ?_⟩
    intro c hc
    refine hcell.1.trans ?_
    rw [List.getD_eq_getElem?_getD, hc]
    rfl
  · intro i hi
    rw [← expandRecords_length] at hi
    rw [recordsOf_encodeRecords rs hword]
    have hcell := foldl_writeVoxel_cells cm (expandRecords rs) ⟨0, occ, seg⟩ i
    have hin : ¬ ((0 : Int) ≤ i ∧ i < 0 + ((expandRecords rs).length : Int)) := by omega
    simp only [hin, if_false] at hcell
    exact ⟨hcell.2, hcell.1⟩

/-- Witness for C8 amended: the record `(1, 1)` writes cell 0 and leaves cell 1 at `7`. -/
theorem C8_decoder_writes_sum_of_counts_witness :
    ∃ out, ReadVoxLabel 3 (IFStream.ofBytes (List.replicate 76 0 ++ encodeRecords [(1, 1)]))
        (fun _ => 7) [0, 5] (fun _ => 7) = some out
      ∧ out.occupancy_label_fullsize 0 = 1 ∧ out.segmentation_label_fullsize 0 = 5
      ∧ out.occupancy_label_fullsize 1 = 7 ∧ out.segmentation_label_fullsize 1 = 7 := by
  obtain ⟨out, hout, hin, hnot⟩ := C8_decoder_writes_sum_of_counts 3 (List.replicate 76 0)
    (by simp) [(1, 1)] (by simp) [0, 5] (by simp) (fun _ => 7) (fun _ => 7)
  refine ⟨out, hout, ?_⟩
  obtain ⟨v, hv, ho, hs⟩ := hin 0 (by simp)
  have hv1 : v = 1 := by
    simp [expandRecords] at hv
    exact hv.symm
  subst hv1
  have h1 := hnot 1 (by simp)
  refine ⟨by simpa using ho, by simpa using hs 5 rfl, h1.1, h1.2⟩

/-- C9: no partial trailing record.  For every stream with a complete 76-byte header
followed by `r` bytes the decoder finishes; the records it expands are the `r / 8` complete
8-byte records of those bytes; and decoding the stream with the bytes after the last
complete record removed gives the same result. -/
theorem C9_no_partial_trailing_record (fuel : Nat) (hdr body : List uchar)
    (hhdr : hdr.length = 76) (hfuel : body.length / 4 < fuel) (occ : Int → Dtype)
    (cm : List Int) (seg : Int → Dtype) :
    ∃ out, ReadVoxLabel fuel (IFStream.ofBytes (hdr ++ body)) occ cm seg = some out
      ∧ ReadVoxLabel fuel (IFStream.ofBytes (hdr ++ body.take (8 * (body.length / 8))))
          occ cm seg = some out
      ∧ (recordsOf body).length = body.length / 8
      ∧ out.occupancy_label_fullsize
          = ((recordsOf body).foldl (fun st p => expandRun cm p.1 p.2 st)
              ⟨0, occ, seg⟩).occupancy_label_fullsize
      ∧ out.segmentation_label_fullsize
          = ((recordsOf body).foldl (fun st p => expandRun cm p.1 p.2 st)
              ⟨0, occ, seg⟩).segmentation_label_fullsize := by
  have hlen : (body.take (8 * (body.length / 8))).length / 4 < fuel := by
    rw [List.length_take]
    omega
  refine ⟨_, ReadVoxLabel_good fuel hdr body hhdr hfuel occ cm seg, ?_,
    recordsOf_length body, ?_, ?_⟩
  · rw [ReadVoxLabel_good fuel hdr _ hhdr hlen occ cm seg, recordsOf_take]
  · rw [foldl_expandRun_eq]
  · rw [foldl_expandRun_eq]

/-- Witness for C9: one complete record `(1, 2)` followed by five stray bytes decodes as
the record alone. -/
theorem C9_no_partial_trailing_record_witness :
    ∃ out, ReadVoxLabel 4
        (IFStream.ofBytes (List.replicate 76 0 ++ (encodeRecords [(1, 2)] ++ [9, 9, 9, 9, 9])))
        (fun _ => 7) [0, 5] (fun _ => 7) = some out
      ∧ ReadVoxLabel 4 (IFStream.ofBytes (List.replicate 76 0 ++ encodeRecords [(1, 2)]))
        (fun _ => 7) [0, 5] (fun _ => 7) = some out := by
  obtain ⟨out, h1, h2, _⟩ := C9_no_partial_trailing_record 4 (List.replicate 76 0)
    (encodeRecords [(1, 2)] ++ [9, 9, 9, 9, 9]) (by simp) (by decide) (fun _ => 7) [0, 5]
    (fun _ => 7)
  exact ⟨out, h1, h2⟩

/-! ## The claim about `ReadDepthImage` -/

/-- A loop storing `f i` at `i` for `i < n` leaves `f k` in each cell `k < n` and does not
touch the others. -/
theorem foldl_store_range (f : Nat → Dtype) (buf : Int → Dtype) (n : Nat) (k : Int) :
    (List.range n).foldl (fun b (i : Nat) => store b i (f i)) buf k
      = if 0 ≤ k ∧ k < n then f k.toNat else buf k := by
  induction n with
  | zero =>
    have : ¬ (0 ≤ k ∧ k < ((0 : Nat) : Int)) := by omega
    simp only [List.range_zero, List.foldl_nil, this, if_false]
  | succ n ih =>
    rw [List.range_succ, List.foldl_append, List.foldl_cons, List.foldl_nil]
    by_cases hk : k = (n : Int)
    · subst hk
      have : (0 : Int) ≤ (n : Int) ∧ (n : Int) < ((n + 1 : Nat) : Int) := by omega
      simp only [store_same, this, and_self, if_true, Int.toNat_ofNat]
    · rw [store_other _ _ _ _ hk, ih]
      by_cases h1 : 0 ≤ k ∧ k < (n : Int)
      · have h2 : 0 ≤ k ∧ k < ((n + 1 : Nat) : Int) := by omega
        simp only [h1, h2, and_self, if_true]
      · have h2 : ¬ (0 ≤ k ∧ k < ((n + 1 : Nat) : Int)) := by omega
        simp only [h1, h2, if_false]

/-- The per-pixel word of the decoder is the 16-bit left rotation by 13 of the word made
of the two bytes. -/
theorem depth_raw_eq (data : Int → uchar) (i : Int) :
    depth_raw data i
      = (((data (i * 2 + 1)).val * 256 + (data (i * 2 + 0)).val) * 8192) % 65536
        + ((data (i * 2 + 1)).val * 256 + (data (i * 2 + 0)).val) / 8 := by
  have hlo := (data (i * 2 + 0)).isLt
  have hhi := (data (i * 2 + 1)).isLt
  unfold depth_raw
  simp only [Nat.shiftLeft_eq, Nat.shiftRight_eq_div_pow]
  generalize (data (i * 2 + 0)).val = lo at hlo ⊢
  generalize (data (i * 2 + 1)).val = hi at hhi ⊢
  have hw : (hi * 2 ^ 8 + lo) % 2 ^ 16 = hi * 256 + lo := by omega
  rw [hw]
  have hb : (hi * 256 + lo) / 2 ^ 3 < 2 ^ 13 := by omega
  have hor := Nat.mul_add_lt_is_or hb (hi * 256 + lo)
  rw [Nat.mul_comm (hi * 256 + lo) (2 ^ 13), ← hor]
  omega

/-- C10: depth decode formula.  For every pixel `i` of the frame, with `low` and `high` the
bytes `data[2 i]` and `data[2 i + 1]` and `w = high * 256 + low`, the millimetre count
computed by `ReadDepthImage` is the 16-bit left rotation of `w` by 13 bits,
`(w * 8192) mod 65536 + w div 8`, which is below `65536`, and the depth stored at `i` is
that count divided by `1000`. -/
theorem C10_depth_decode_formula (data : Int → uchar) (depth_data : Int → Dtype)
    (frame_width frame_height : Int) (i : Nat)
    (hi : (i : Int) < frame_height * frame_width) :
    let low := (data (i * 2 + 0)).val
    let high := (data (i * 2 + 1)).val
    let w := high * 256 + low
    depth_raw data i = (w * 8192) % 65536 + w / 8
    ∧ (w * 8192) % 65536 + w / 8 < 65536
    ∧ ReadDepthImage data depth_data frame_width frame_height i
        = (((w * 8192) % 65536 + w / 8 : Nat) : Dtype) / 1000 := by
  intro low high w
  have hlo : low < 256 := (data (i * 2 + 0)).isLt
  have hhi : high < 256 := (data (i * 2 + 1)).isLt
  refine ⟨depth_raw_eq data i, by omega, ?_⟩
  unfold ReadDepthImage
  rw [foldl_store_range (fun i => (depth_raw data i : Dtype) / 1000)]
  have hin : (0 : Int) ≤ (i : Int) ∧ (i : Int) < ((frame_height * frame_width).toNat : Int) := by
    omega
  simp only [hin, and_self, if_true, Int.toNat_ofNat]
  rw [depth_raw_eq]

/-- Witness for C10: in a 1x1 frame the bytes `[0x41, 0xa3]` decode to `13416` mm. -/
theorem C10_depth_decode_formula_witness :
    ReadDepthImage (fun j => if j = 0 then ⟨0x41, by decide⟩ else ⟨0xa3, by decide⟩)
        (fun _ => 0) 1 1 0 = 13416 / 1000 := by
  have h := (C10_depth_decode_formula
    (fun j => if j = 0 then ⟨0x41, by decide⟩ else ⟨0xa3, by decide⟩) (fun _ => 0) 1 1 0
    (by decide)).2.2
  simp only [Nat.cast_zero] at h
  rw [h]
  norm_num

/-! ## The claims about the depth round trip and the missing length check -/

/-- C11: depth decode round trip.  For every 16-bit value `v`, packing it (16-bit left
rotation by 3, stored as `[low, high]`) and applying the per-pixel decode of
`ReadDepthImage` gives the millimetre count `v`, so the decoded depth is `v / 1000`; and
the per-pixel decode is a bijection on 16-bit words: two pixels with the same count have
the same two bytes, and every 16-bit count is the decode of some pixel. -/
theorem C11_depth_round_trip (vs : Int → Nat) (depth_data : Int → Dtype)
    (frame_width frame_height : Int) (i : Nat) (hv : vs i < 65536)
    (hi : (i : Int) < frame_height * frame_width) :
    depth_raw (encodeImage vs) i = vs i
    ∧ ReadDepthImage (encodeImage vs) depth_data frame_width frame_height i
        = (vs i : Dtype) / 1000
    ∧ (∀ (data data' : Int → uchar) (j : Int), depth_raw data j = depth_raw data' j →
        data (j * 2 + 0) = data' (j * 2 + 0) ∧ data (j * 2 + 1) = data' (j * 2 + 1))
    ∧ (∀ (v : Nat) (j : Int), v < 65536 → ∃ data : Int → uchar, depth_raw data j = v) := by
  have round : ∀ (ws : Int → Nat) (j : Int), ws j < 65536 →
      depth_raw (encodeImage ws) j = ws j := by
    intro ws j hw
    rw [depth_raw_eq]
    have e0 : (j * 2 + 0) % 2 = 0 := by omega
    have e1 : ¬ (j * 2 + 1) % 2 = 0 := by omega
    have d0 : (j * 2 + 0) / 2 = j := by omega
    have d1 : (j * 2 + 1) / 2 = j := by omega
    simp only [encodeImage, e0, e1, d0, d1, if_true, if_false, Fin.ofNat, Fin.val_mk,
      encodeDepth]
    generalize ws j = v at hw
    obtain ⟨a, b, rfl, ha, hb⟩ : ∃ a b, v = 8192 * a + b ∧ a < 8 ∧ b < 8192 :=
      ⟨v / 8192, v % 8192, by omega, by omega, by omega⟩
    have he : (8192 * a + b) * 2 ^ 3 % 2 ^ 16 + (8192 * a + b) / 2 ^ 13 % 2 ^ 3 = 8 * b + a := by
      omega
    simp only [he]
    have hw2 : (8 * b + a) / 2 ^ 8 % (255 + 1) * 256 + (8 * b + a) % (255 + 1) = 8 * b + a := by
      omega
    simp only [hw2]
    have e3 : (8 * b + a) * 8192 % 65536 = 8192 * a := by
      have : (8 * b + a) * 8192 = 8192 * a + 65536 * b := by ring
      rw [this, Nat.add_mul_mod_self_left]
      exact Nat.mod_eq_of_lt (by omega)
    have e4 : (8 * b + a) / 8 = b := by omega
    rw [e3, e4]
  refine ⟨round vs i hv, ?_, ?_, ?_⟩
  · unfold ReadDepthImage
    rw [foldl_store_range (fun i => (depth_raw (encodeImage vs) i : Dtype) / 1000)]
    have hin : (0 : Int) ≤ (i : Int)
        ∧ (i : Int) < ((frame_height * frame_width).toNat : Int) := by omega
    simp only [hin, and_self, if_true, Int.toNat_ofNat]
    rw [round vs i hv]
  · intro data data' j h
    rw [depth_raw_eq, depth_raw_eq] at h
    have h0 := (data (j * 2 + 0)).isLt
    have h1 := (data (j * 2 + 1)).isLt
    have h0' := (data' (j * 2 + 0)).isLt
    have h1' := (data' (j * 2 + 1)).isLt
    rw [← Fin.val_inj, ← Fin.val_inj]
    generalize (data (j * 2 + 0)).val = lo at h h0
    generalize (data (j * 2 + 1)).val = hi at h h1
    generalize (data' (j * 2 + 0)).val = lo' at h h0'
    generalize (data' (j * 2 + 1)).val = hi' at h h1'
    have e1 : (hi * 256 + lo) * 8192 % 65536 = (hi * 256 + lo) % 8 * 8192 := by omega
    have e2 : (hi' * 256 + lo') * 8192 % 65536 = (hi' * 256 + lo') % 8 * 8192 := by omega
    rw [e1, e2] at h
    have hw : hi * 256 + lo = hi' * 256 + lo' := by omega
    exact ⟨by omega, by omega⟩
  · intro v j hv'
    exact ⟨encodeImage (fun _ => v), round (fun _ => v) j hv'⟩

/-- Witness for C11: the raw value `13416` packed into a 1x1 image decodes to `13416`. -/
theorem C11_depth_round_trip_witness :
    depth_raw (encodeImage (fun _ => 13416)) 0 = 13416
    ∧ ReadDepthImage (encodeImage (fun _ => 13416)) (fun _ => 0) 1 1 0 = 13416 / 1000 := by
  have h := C11_depth_round_trip (fun _ => 13416) (fun _ => 0) 1 1 0 (by decide) (by decide)
  refine ⟨h.1, ?_⟩
  have h2 := h.2.1
  simp only [Nat.cast_zero] at h2
  rw [h2]
  norm_num

/-- C12 as stated fails: the decoder has no length check and no error outcome.  For a 2x1
frame (4 bytes needed) and a 2-byte buffer `[8, 0]`, two memories that agree on the buffer
and differ in the byte at index 2, past its end, both yield a depth map, and the maps differ
at pixel 1: the decoder has read past the end of the buffer. -/
theorem C12_no_length_check_counterexample :
    (∀ j : Int, 0 ≤ j → j < 2 →
      (fun j : Int => if j = 0 then (⟨8, by decide⟩ : uchar) else ⟨0, by decide⟩) j
        = (fun j : Int => if j = 0 then (⟨8, by decide⟩ : uchar)
            else if j = 2 then ⟨16, by decide⟩ else ⟨0, by decide⟩) j)
    ∧ ReadDepthImage (fun j : Int => if j = 0 then (⟨8, by decide⟩ : uchar) else ⟨0, by decide⟩)
        (fun _ => 0) 2 1 1 = 0
    ∧ ReadDepthImage (fun j : Int => if j = 0 then (⟨8, by decide⟩ : uchar)
          else if j = 2 then ⟨16, by decide⟩ else ⟨0, by decide⟩)
        (fun _ => 0) 2 1 1 = 2 / 1000 := by
  refine ⟨?_, ?_, ?_⟩
  · intro j h0 h2
    have hj : j ≠ 2 := by omega
    simp [hj]
  · unfold ReadDepthImage
    rw [foldl_store_range (fun i => (depth_raw _ i : Dtype) / 1000)]
    rw [if_pos (by decide)]
    rw [depth_raw_eq]
    norm_num
  · unfold ReadDepthImage
    rw [foldl_store_range (fun i => (depth_raw _ i : Dtype) / 1000)]
    rw [if_pos (by decide)]
    rw [depth_raw_eq]
    norm_num

/-- C12, amended: the depth decoder checks no length and has no error outcome.  For every
width, height and image memory it writes exactly the pixels `0 .. height * width - 1`,
pixel `k` with the rotated word of the bytes at `2 k` and `2 k + 1` divided by `1000`,
wherever the image buffer ends; every other cell of the depth map keeps its contents. -/
theorem C12_decoder_reads_two_bytes_per_pixel (data : Int → uchar)
    (depth_data : Int → Dtype) (frame_width frame_height : Int) (k : Int) :
    ReadDepthImage data depth_data frame_width frame_height k
      = if 0 ≤ k ∧ k < frame_height * frame_width then
          (((((data (k * 2 + 1)).val * 256 + (data (k * 2 + 0)).val) * 8192) % 65536
            + ((data (k * 2 + 1)).val * 256 + (data (k * 2 + 0)).val) / 8 : Nat) : Dtype) / 1000
        else depth_data k := by
  unfold ReadDepthImage
  rw [foldl_store_range (fun i => (depth_raw data i : Dtype) / 1000)]
  by_cases h : 0 ≤ k ∧ k < frame_height * frame_width
  · have h' : 0 ≤ k ∧ k < ((frame_height * frame_width).toNat : Int) := by omega
    rw [if_pos h, if_pos h']
    have hk : ((k.toNat : Nat) : Int) = k := Int.toNat_of_nonneg h.1
    rw [hk, depth_raw_eq]
  · have h' : ¬ (0 ≤ k ∧ k < ((frame_height * frame_width).toNat : Int)) := by omega
    rw [if_neg h, if_neg h']

/-! ## Two calls on one volume -/

/-- The loop body acts on the cell `(tsdf, weight)` at `vox_idx` by its outcome. -/
theorem IntegrateVoxel_cell (sqrtf : Dtype → Dtype)
    (cam_info vox_info depth_data : Int → Dtype) (z y x : Int) (vol : Volume) :
    ((IntegrateVoxel sqrtf cam_info vox_info depth_data z y x vol).vox_tsdf
        (vox_idx vox_info z y x),
      (IntegrateVoxel sqrtf cam_info vox_info depth_data z y x vol).vox_weight
        (vox_idx vox_info z y x))
      = applyOutcome (voxelOutcome sqrtf cam_info vox_info depth_data z y x)
          (vol.vox_tsdf (vox_idx vox_info z y x), vol.vox_weight (vox_idx vox_info z y x)) := by
  unfold IntegrateVoxel voxelOutcome
  simp only []
  split_ifs <;>
    simp [applyOutcome, fuse, setSentinel, encodeHeight_tsdf, encodeHeight_weight, store_same]

/-- A launch acts on the cell of each voxel it visits by the outcome of that voxel. -/
theorem IntegrateLaunch_cell (sqrtf : Dtype → Dtype)
    (cam_info vox_info depth_data : Int → Dtype) (gridDim blockDim z y x : Nat)
    (hv : VoxelInLaunch vox_info gridDim blockDim z y x) (vol : Volume) :
    ((IntegrateLaunch sqrtf cam_info vox_info depth_data gridDim blockDim vol).vox_tsdf
        (vox_idx vox_info z y x),
      (IntegrateLaunch sqrtf cam_info vox_info depth_data gridDim blockDim vol).vox_weight
        (vox_idx vox_info z y x))
      = applyOutcome (voxelOutcome sqrtf cam_info vox_info depth_data z y x)
          (vol.vox_tsdf (vox_idx vox_info z y x), vol.vox_weight (vox_idx vox_info z y x)) := by
  rw [IntegrateLaunch_tsdf _ _ _ _ _ _ _ _ _ hv, IntegrateLaunch_weight _ _ _ _ _ _ _ _ _ hv]
  exact IntegrateVoxel_cell sqrtf cam_info vox_info depth_data z y x vol

/-- Two launches in a row act on the cell of a visited voxel by their two outcomes. -/
theorem IntegrateLaunch_twice_cell (sqrtf : Dtype → Dtype)
    (camA depthA camB depthB vox_info : Int → Dtype) (gridDim blockDim z y x : Nat)
    (hv : VoxelInLaunch vox_info gridDim blockDim z y x) (vol : Volume) :
    ((IntegrateLaunch sqrtf camB vox_info depthB gridDim blockDim
          (IntegrateLaunch sqrtf camA vox_info depthA gridDim blockDim vol)).vox_tsdf
        (vox_idx vox_info z y x),
      (IntegrateLaunch sqrtf camB vox_info depthB gridDim blockDim
          (IntegrateLaunch sqrtf camA vox_info depthA gridDim blockDim vol)).vox_weight
        (vox_idx vox_info z y x))
      = applyOutcome (voxelOutcome sqrtf camB vox_info depthB z y x)
          (applyOutcome (voxelOutcome sqrtf camA vox_info depthA z y x)
            (vol.vox_tsdf (vox_idx vox_info z y x), vol.vox_weight (vox_idx vox_info z y x))) := by
  rw [IntegrateLaunch_cell sqrtf camB vox_info depthB gridDim blockDim z y x hv,
    IntegrateLaunch_cell sqrtf camA vox_info depthA gridDim blockDim z y x hv]

/-- Two running-mean updates of a cell of non-negative weight commute. -/
theorem fuse_comm (t w s1 s2 : Dtype) (hw : 0 ≤ w) :
    fuse (fuse (t, w) s1) s2 = fuse (fuse (t, w) s2) s1 := by
  have h1 : w + 1 ≠ 0 := by linarith
  simp only [fuse]
  rw [div_mul_cancel₀ _ h1, div_mul_cancel₀ _ h1]
  congr 1
  ring

/-- The weight after two outcomes does not depend on their order. -/
theorem applyOutcome_weight_comm (a b : Outcome) (c : Dtype × Dtype) :
    (applyOutcome b (applyOutcome a c)).2 = (applyOutcome a (applyOutcome b c)).2 := by
  cases a <;> cases b <;> simp [applyOutcome, fuse]

/-- Two outcomes commute on a cell of non-negative weight unless one is the sentinel store
and the other an update. -/
theorem applyOutcome_comm (a b : Outcome) (c : Dtype × Dtype) (hw : 0 ≤ c.2)
    (hab : a = Outcome.sentinel → ∀ s, b ≠ Outcome.update s)
    (hba : b = Outcome.sentinel → ∀ s, a ≠ Outcome.update s) :
    applyOutcome b (applyOutcome a c) = applyOutcome a (applyOutcome b c) := by
  obtain ⟨t, w⟩ := c
  cases a <;> cases b <;> try rfl
  · exact absurd rfl (hab rfl _)
  · exact absurd rfl (hba rfl _)
  · exact fuse_comm t w _ _ hw

theorem ex_point_dist (h d : Dtype) :
    point_dist (fun _ => 1) exCam (exVox h) (ofList [d]) 0 0 0 = d - h := by
  simp [point_dist, ex_point_depth, ex_point_cam]

theorem ex_margin (h : Dtype) : vox_margin (exVox h) = 1 := by
  simp [vox_margin, exVox, ofList]

/-- In the one-voxel scene at camera depth 1 a measured depth `d` in `[1/2, 10]` updates the
voxel with `sdf = min 1 (d - 1)`. -/
theorem ex_outcome_update (d : Dtype) (h1 : 1 / 2 ≤ d) (h2 : d ≤ 10) :
    voxelOutcome (fun _ => 1) exCam (exVox 1) (ofList [d]) 0 0 0
      = Outcome.update (min 1 (d - 1)) := by
  have hr : roundf d ≠ 0 := by
    have h0 : (0 : Dtype) ≤ d := by linarith
    simp only [roundf, h0, if_true]
    have : (1 : Int) ≤ ⌊d + 1 / 2⌋ := Int.le_floor.2 (by push_cast; linarith)
    omega
  unfold voxelOutcome
  simp only [ex_point_cam, ex_pixel, ex_frame, ex_point_depth, ex_point_dist, ex_margin]
  rw [if_neg (by norm_num), if_neg (by norm_num), if_neg (by
    rintro (h | h) <;> linarith), if_neg hr, if_pos (by linarith)]
  simp

/-- In the one-voxel scene a measured depth in `[0, 1/2)` resets the voxel to the sentinel. -/
theorem ex_outcome_sentinel (d : Dtype) (h1 : 0 ≤ d) (h2 : d < 1 / 2) :
    voxelOutcome (fun _ => 1) exCam (exVox 1) (ofList [d]) 0 0 0 = Outcome.sentinel := by
  have hr : roundf d = 0 := by
    simp only [roundf, h1, if_true]
    rw [Int.floor_eq_iff]
    constructor <;> push_cast <;> linarith
  unfold voxelOutcome
  simp only [ex_point_cam, ex_pixel, ex_frame, ex_point_depth]
  rw [if_neg (by norm_num), if_neg (by norm_num), if_neg (by
    rintro (h | h) <;> linarith), if_pos hr]

/-! ## The claims about call order, skips and the sentinel -/

/-- C13 as stated fails: in the one-voxel scene with prior cell `(1/2, 3)`, a call that
updates the voxel (measured depth 1) followed by a call that resets it (measured depth 2/5)
leaves tsdf `-1`, while the same two calls in the other order leave tsdf `-3/4`. -/
theorem C13_call_order_counterexample :
    (IntegrateLaunch (fun _ => 1) exCam (exVox 1) (ofList [2 / 5]) 1 1
        (IntegrateLaunch (fun _ => 1) exCam (exVox 1) (ofList [1]) 1 1
          (exVol (1 / 2) 3))).vox_tsdf 0 = -1
    ∧ (IntegrateLaunch (fun _ => 1) exCam (exVox 1) (ofList [1]) 1 1
        (IntegrateLaunch (fun _ => 1) exCam (exVox 1) (ofList [2 / 5]) 1 1
          (exVol (1 / 2) 3))).vox_tsdf 0 = -3 / 4 := by
  have hAB := IntegrateLaunch_twice_cell (fun _ => 1) exCam (ofList [1]) exCam (ofList [2 / 5])
    (exVox 1) 1 1 0 0 0 (ex_inLaunch 1) (exVol (1 / 2) 3)
  have hBA := IntegrateLaunch_twice_cell (fun _ => 1) exCam (ofList [2 / 5]) exCam (ofList [1])
    (exVox 1) 1 1 0 0 0 (ex_inLaunch 1) (exVol (1 / 2) 3)
  simp only [Nat.cast_zero, ex_vox_idx, ex_outcome_update 1 (by norm_num) (by norm_num),
    ex_outcome_sentinel (2 / 5) (by norm_num) (by norm_num)] at hAB hBA
  have ht : (exVol (1 / 2) 3).vox_tsdf 0 = 1 / 2 := by simp [exVol, ofList]
  have hw : (exVol (1 / 2) 3).vox_weight 0 = 3 := by simp [exVol, ofList]
  rw [ht, hw] at hAB hBA
  have e1 := congrArg Prod.fst hAB
  have e2 := congrArg Prod.fst hBA
  simp only [applyOutcome, fuse] at e1 e2
  exact ⟨e1, e2.trans (by norm_num)⟩

/-- The `sdf` of an update lies in `(-1, 1]` when the margin is positive. -/
theorem voxelOutcome_update_bounds (sqrtf : Dtype → Dtype)
    (cam_info vox_info depth_data : Int → Dtype) (z y x : Int) (s : Dtype)
    (hm : 0 < vox_margin vox_info)
    (ho : voxelOutcome sqrtf cam_info vox_info depth_data z y x = Outcome.update s) :
    -1 < s ∧ s ≤ 1 := by
  unfold voxelOutcome at ho
  split_ifs at ho with h1 h2 h3 h4 h5
  injection ho with hs
  rw [← hs]
  refine ⟨lt_min (by norm_num) ?_, min_le_left _ _⟩
  rw [lt_div_iff₀ hm]
  linarith

/-- C13, amended (in exact arithmetic): for a voxel visited by two calls on the same grid,
the final weight is the same in either order of the calls, whatever the prior cell; when
the prior weight is non-negative the final tsdf is the same in either order too, unless one
call resets the voxel to the sentinel while the other updates it by the running mean; and
in that excepted case, with prior weight `w >= 0`, positive margin and `sdf` the
observation of the updating call, update-then-reset leaves `-1` while reset-then-update
leaves `(-w + sdf) / (w + 1)`, which is above `-1`, so the order decides. -/
theorem C13_calls_commute_without_reset (sqrtf : Dtype → Dtype)
    (camA depthA camB depthB vox_info : Int → Dtype) (gridDim blockDim z y x : Nat)
    (hv : VoxelInLaunch vox_info gridDim blockDim z y x) (vol : Volume) :
    (IntegrateLaunch sqrtf camB vox_info depthB gridDim blockDim
        (IntegrateLaunch sqrtf camA vox_info depthA gridDim blockDim vol)).vox_weight
        (vox_idx vox_info z y x)
      = (IntegrateLaunch sqrtf camA vox_info depthA gridDim blockDim
          (IntegrateLaunch sqrtf camB vox_info depthB gridDim blockDim vol)).vox_weight
          (vox_idx vox_info z y x)
    ∧ (0 ≤ vol.vox_weight (vox_idx vox_info z y x) →
       (voxelOutcome sqrtf camA vox_info depthA z y x = Outcome.sentinel →
          ∀ s, voxelOutcome sqrtf camB vox_info depthB z y x ≠ Outcome.update s) →
       (voxelOutcome sqrtf camB vox_info depthB z y x = Outcome.sentinel →
          ∀ s, voxelOutcome sqrtf camA vox_info depthA z y x ≠ Outcome.update s) →
       (IntegrateLaunch sqrtf camB vox_info depthB gridDim blockDim
          (IntegrateLaunch sqrtf camA vox_info depthA gridDim blockDim vol)).vox_tsdf
          (vox_idx vox_info z y x)
        = (IntegrateLaunch sqrtf camA vox_info depthA gridDim blockDim
            (IntegrateLaunch sqrtf camB vox_info depthB gridDim blockDim vol)).vox_tsdf
            (vox_idx vox_info z y x))
    ∧ (0 ≤ vol.vox_weight (vox_idx vox_info z y x) → 0 < vox_margin vox_info →
       ∀ s, voxelOutcome sqrtf camA vox_info depthA z y x = Outcome.update s →
       voxelOutcome sqrtf camB vox_info depthB z y x = Outcome.sentinel →
       (IntegrateLaunch sqrtf camB vox_info depthB gridDim blockDim
          (IntegrateLaunch sqrtf camA vox_info depthA gridDim blockDim vol)).vox_tsdf
          (vox_idx vox_info z y x) = -1
       ∧ (IntegrateLaunch sqrtf camA vox_info depthA gridDim blockDim
            (IntegrateLaunch sqrtf camB vox_info depthB gridDim blockDim vol)).vox_tsdf
            (vox_idx vox_info z y x)
          = (-vol.vox_weight (vox_idx vox_info z y x) + s)
              / (vol.vox_weight (vox_idx vox_info z y x) + 1)
       ∧ -1 < (-vol.vox_weight (vox_idx vox_info z y x) + s)
              / (vol.vox_weight (vox_idx vox_info z y x) + 1)) := by
  have hAB := IntegrateLaunch_twice_cell sqrtf camA depthA camB depthB vox_info gridDim
    blockDim z y x hv vol
  have hBA := IntegrateLaunch_twice_cell sqrtf camB depthB camA depthA vox_info gridDim
    blockDim z y x hv vol
  have e1 := congrArg Prod.fst hAB
  have e2 := congrArg Prod.fst hBA
  simp only at e1 e2
  refine ⟨?_, ?_, ?_⟩
  · have w1 := congrArg Prod.snd hAB
    have w2 := congrArg Prod.snd hBA
    simp only at w1 w2
    rw [w1, w2]
    exact applyOutcome_weight_comm _ _ _
  · intro hw hab hba
    rw [e1, e2, applyOutcome_comm _ _ _ hw hab hba]
  · intro hw hm s hA hB
    rw [hA, hB] at e1 e2
    simp only [applyOutcome, fuse] at e1 e2
    have hs := (voxelOutcome_update_bounds sqrtf camA vox_info depthA z y x s hm hA).1
    have hpos : 0 < vol.vox_weight (vox_idx vox_info z y x) + 1 := by linarith
    refine ⟨e1, ?_, ?_⟩
    · rw [e2]
      congr 1
      ring
    · rw [lt_div_iff₀ hpos]
      linarith

/-- Witness for C13 amended: two updating calls (measured depths 1 and 3/2) on the cell
`(1/2, 3)` give the same tsdf in either order. -/
theorem C13_calls_commute_without_reset_witness :
    (IntegrateLaunch (fun _ => 1) exCam (exVox 1) (ofList [3 / 2]) 1 1
        (IntegrateLaunch (fun _ => 1) exCam (exVox 1) (ofList [1]) 1 1
          (exVol (1 / 2) 3))).vox_tsdf 0
      = (IntegrateLaunch (fun _ => 1) exCam (exVox 1) (ofList [1]) 1 1
          (IntegrateLaunch (fun _ => 1) exCam (exVox 1) (ofList [3 / 2]) 1 1
            (exVol (1 / 2) 3))).vox_tsdf 0 := by
  have h := (C13_calls_commute_without_reset (fun _ => 1) exCam (ofList [1]) exCam
    (ofList [3 / 2]) (exVox 1) 1 1 0 0 0 (ex_inLaunch 1) (exVol (1 / 2) 3)).2.1
  simp only [Nat.cast_zero, ex_vox_idx, ex_outcome_update 1 (by norm_num) (by norm_num),
    ex_outcome_update (3 / 2) (by norm_num) (by norm_num)] at h
  exact h (by simp [exVol, ofList]) (fun h0 => by cases h0) (fun h0 => by cases h0)

/-- C17: depth out of range is a no-write skip.  A visited voxel with positive camera depth
and projected pixel inside the frame whose measured depth is below `0` or above `10` keeps
the tsdf and the weight it had before the call. -/
theorem C17_depth_out_of_range_skip (sqrtf : Dtype → Dtype)
    (cam_info vox_info depth_data : Int → Dtype) (gridDim blockDim z y x : Nat)
    (hv : VoxelInLaunch vox_info gridDim blockDim z y x) (vol : Volume)
    (_hcam : 0 < point_cam cam_info vox_info z y x 2)
    (_hpx : 0 ≤ pixel_x cam_info vox_info z y x
      ∧ pixel_x cam_info vox_info z y x < frame_width cam_info)
    (_hpy : 0 ≤ pixel_y cam_info vox_info z y x
      ∧ pixel_y cam_info vox_info z y x < frame_height cam_info)
    (hd : point_depth cam_info vox_info depth_data z y x < 0
      ∨ point_depth cam_info vox_info depth_data z y x > 10) :
    (IntegrateLaunch sqrtf cam_info vox_info depth_data gridDim blockDim vol).vox_tsdf
        (vox_idx vox_info z y x) = vol.vox_tsdf (vox_idx vox_info z y x)
    ∧ (IntegrateLaunch sqrtf cam_info vox_info depth_data gridDim blockDim vol).vox_weight
        (vox_idx vox_info z y x) = vol.vox_weight (vox_idx vox_info z y x) := by
  have hs := IntegrateVoxel_skip sqrtf cam_info vox_info depth_data z y x vol
    (Or.inr (Or.inr hd))
  exact ⟨by rw [IntegrateLaunch_tsdf _ _ _ _ _ _ _ _ _ hv, hs.1],
    by rw [IntegrateLaunch_weight _ _ _ _ _ _ _ _ _ hv, hs.2]⟩

/-- Witness for C17: a measured depth of `11` leaves the cell `(1/2, 3)` as it was. -/
theorem C17_depth_out_of_range_skip_witness :
    (IntegrateLaunch (fun _ => 1) exCam (exVox 1) (ofList [11]) 1 1
        (exVol (1 / 2) 3)).vox_tsdf 0 = 1 / 2
    ∧ (IntegrateLaunch (fun _ => 1) exCam (exVox 1) (ofList [11]) 1 1
        (exVol (1 / 2) 3)).vox_weight 0 = 3 := by
  have h := C17_depth_out_of_range_skip (fun _ => 1) exCam (exVox 1) (ofList [11]) 1 1 0 0 0
    (ex_inLaunch 1) (exVol (1 / 2) 3)
    (by simp [ex_point_cam])
    (by simp [ex_pixel, ex_frame])
    (by simp [ex_pixel, ex_frame])
    (by simp only [Nat.cast_zero, ex_point_depth]; norm_num)
  simp only [Nat.cast_zero, ex_vox_idx] at h
  exact ⟨by simpa [exVol, ofList] using h.1, by simpa [exVol, ofList] using h.2⟩

/-! ## Single-precision rounding evaluated -/

/-- Inside the binade `[2^e, 2^(e+1))` of a normal exponent the unit in the last place is
`2^(e-23)`. -/
theorem binary32_of_binade (q : Dtype) (e : Int) (he : -126 ≤ e)
    (h1 : (2 : Dtype) ^ e ≤ |q|) (h2 : |q| < (2 : Dtype) ^ (e + 1)) :
    binary32 q = (roundTiesEven (q / 2 ^ (e - 23)) : Dtype) * 2 ^ (e - 23) := by
  have hpos : 0 < |q| := lt_of_lt_of_le (by positivity) h1
  have hq : q ≠ 0 := abs_pos.1 hpos
  have hlog : Int.log 2 |q| = e := by
    apply le_antisymm
    · have := (Int.lt_zpow_iff_log_lt (by norm_num : 1 < 2) hpos).1 (by exact_mod_cast h2)
      omega
    · exact (Int.zpow_le_iff_le_log (by norm_num : 1 < 2) hpos).1 (by exact_mod_cast h1)
  unfold binary32
  rw [if_neg hq]
  simp only [hlog, max_eq_left he]

theorem roundTiesEven_intCast (n : Int) : roundTiesEven (n : Dtype) = n := by
  simp [roundTiesEven]

/-- A multiple of the unit in the last place of its binade is a binary32 value. -/
theorem binary32_exact (q : Dtype) (e n : Int) (he : -126 ≤ e)
    (h1 : (2 : Dtype) ^ e ≤ |q|) (h2 : |q| < (2 : Dtype) ^ (e + 1))
    (hq : q = (n : Dtype) * 2 ^ (e - 23)) : binary32 q = q := by
  rw [binary32_of_binade q e he h1 h2]
  have hu : (2 : Dtype) ^ (e - 23) ≠ 0 := zpow_ne_zero _ (by norm_num)
  have : q / 2 ^ (e - 23) = (n : Dtype) := by rw [hq]; field_simp
  rw [this, roundTiesEven_intCast, ← hq]

theorem binary32_neg_one : binary32 (-1) = -1 :=
  binary32_exact (-1) 0 (-8388608) (by norm_num) (by norm_num) (by norm_num) (by norm_num)

theorem binary32_two : binary32 2 = 2 :=
  binary32_exact 2 1 8388608 (by norm_num) (by norm_num) (by norm_num) (by norm_num)

theorem binary32_three_halves : binary32 (3 / 2) = 3 / 2 :=
  binary32_exact _ 0 12582912 (by norm_num)
    (by rw [abs_of_pos (by norm_num)]; norm_num)
    (by rw [abs_of_pos (by norm_num)]; norm_num) (by norm_num)

/-- The depth `1/2 + 2^-24` is a binary32 value. -/
theorem binary32_above_half : binary32 (8388609 / 16777216) = 8388609 / 16777216 :=
  binary32_exact _ (-1) 8388609 (by norm_num)
    (by rw [abs_of_pos (by norm_num)]; norm_num)
    (by rw [abs_of_pos (by norm_num)]; norm_num) (by norm_num)

/-- The distance `-1 + 2^-24` is a binary32 value. -/
theorem binary32_above_neg_one :
    binary32 (-16777215 / 16777216) = -16777215 / 16777216 :=
  binary32_exact _ (-1) (-16777215) (by norm_num)
    (by rw [abs_of_neg (by norm_num)]; norm_num)
    (by rw [abs_of_neg (by norm_num)]; norm_num) (by norm_num)

/-- The sum `-2 + 2^-24` lies halfway between the binary32 values `-2` and `-2 + 2^-23` and
rounds to the even one, `-2`. -/
theorem binary32_tie : binary32 (-1 + -16777215 / 16777216) = -2 := by
  rw [binary32_of_binade _ 0 (by norm_num)
    (by rw [abs_of_neg (by norm_num)]; norm_num)
    (by rw [abs_of_neg (by norm_num)]; norm_num)]
  have hf : ⌊((-1 + -16777215 / 16777216 : Dtype)) / 2 ^ ((0 : Int) - 23)⌋ = -16777216 := by
    rw [Int.floor_eq_iff]; norm_num
  simp only [roundTiesEven, hf]
  norm_num

/-- In the one-voxel scene at camera depth `3/2` the measured depth `1/2 + 2^-24` takes the
running-mean branch with `sdf = -1 + 2^-24`. -/
theorem ex_outcome_above_neg_one :
    voxelOutcome (fun _ => 1) exCam (exVox (3 / 2)) (ofList [8388609 / 16777216]) 0 0 0
      = Outcome.update (-16777215 / 16777216) := by
  have hr : roundf (8388609 / 16777216 : Dtype) ≠ 0 := by
    have h0 : (0 : Dtype) ≤ 8388609 / 16777216 := by norm_num
    simp only [roundf, h0, if_true]
    have : (1 : Int) ≤ ⌊(8388609 / 16777216 : Dtype) + 1 / 2⌋ :=
      Int.le_floor.2 (by push_cast; norm_num)
    omega
  unfold voxelOutcome
  simp only [ex_point_cam, ex_pixel, ex_frame, ex_point_depth, ex_point_dist, ex_margin]
  rw [if_neg (by norm_num), if_neg (by norm_num), if_neg (by
    rintro (h | h) <;> norm_num at h), if_neg hr, if_pos (by norm_num)]
  norm_num

/-- C19 as stated fails for `Dtype = float`.  One-voxel scene with margin 1, voxel at camera
depth `3/2`, measured depth `1/2 + 2^-24`, prior cell `(-1, 1)`; the scene data and the
distance `-1 + 2^-24` are binary32 values.  The distance is above `-margin`, the call takes
the running-mean branch, and with every operation rounded to binary32 the sum
`-1 * 1 + sdf = -2 + 2^-24` rounds to `-2`, so the tsdf stored is exactly `-1` (weight 2);
in exact arithmetic the same call stores `-33554431/33554432`. -/
theorem C19_binary32_mean_is_sentinel_counterexample :
    (binary32 (3 / 2) = 3 / 2 ∧ binary32 (8388609 / 16777216) = 8388609 / 16777216
      ∧ binary32 (-1) = -1 ∧ binary32 (-16777215 / 16777216) = -16777215 / 16777216)
    ∧ 0 < vox_margin (exVox (3 / 2))
    ∧ -1 ≤ (exVol (-1) 1).vox_tsdf 0 ∧ 0 ≤ (exVol (-1) 1).vox_weight 0
    ∧ point_dist (fun _ => 1) exCam (exVox (3 / 2)) (ofList [8388609 / 16777216]) 0 0 0
        = -16777215 / 16777216
    ∧ point_dist (fun _ => 1) exCam (exVox (3 / 2)) (ofList [8388609 / 16777216]) 0 0 0
        > -vox_margin (exVox (3 / 2))
    ∧ voxelOutcome (fun _ => 1) exCam (exVox (3 / 2)) (ofList [8388609 / 16777216]) 0 0 0
        = Outcome.update (-16777215 / 16777216)
    ∧ fuseBinary32 ((exVol (-1) 1).vox_tsdf 0, (exVol (-1) 1).vox_weight 0)
        (point_dist (fun _ => 1) exCam (exVox (3 / 2)) (ofList [8388609 / 16777216]) 0 0 0)
        (vox_margin (exVox (3 / 2))) = (-1, 2)
    ∧ (IntegrateLaunch (fun _ => 1) exCam (exVox (3 / 2)) (ofList [8388609 / 16777216]) 1 1
        (exVol (-1) 1)).vox_tsdf 0 = -33554431 / 33554432 := by
  have hcell : ((exVol (-1) 1).vox_tsdf 0, (exVol (-1) 1).vox_weight 0)
      = ((-1 : Dtype), (1 : Dtype)) := by
    simp [exVol, ofList]
  have hd : point_dist (fun _ => 1) exCam (exVox (3 / 2)) (ofList [8388609 / 16777216]) 0 0 0
      = -16777215 / 16777216 := by
    rw [ex_point_dist]; norm_num
  have h2 : binary32 ((1 : Dtype) + 1) = 2 := by
    rw [show ((1 : Dtype) + 1) = 2 by norm_num]; exact binary32_two
  refine ⟨⟨binary32_three_halves, binary32_above_half, binary32_neg_one,
    binary32_above_neg_one⟩, by rw [ex_margin]; norm_num, by simp [exVol, ofList],
    by simp [exVol, ofList], hd, by rw [hd, ex_margin]; norm_num,
    ex_outcome_above_neg_one, ?_, ?_⟩
  · rw [hcell, hd, ex_margin]
    simp only [fuseBinary32, div_one, mul_one, binary32_above_neg_one, binary32_neg_one, h2]
    rw [min_eq_right (by norm_num), binary32_tie]
    rw [show ((-2 : Dtype) / 2) = -1 by norm_num, binary32_neg_one]
  · have h := congrArg Prod.fst (IntegrateLaunch_cell (fun _ => 1) exCam (exVox (3 / 2))
      (ofList [8388609 / 16777216]) 1 1 0 0 0 (ex_inLaunch _) (exVol (-1) 1))
    simp only [Nat.cast_zero, ex_vox_idx, ex_outcome_above_neg_one, applyOutcome, fuse] at h
    rw [h]
    simp [exVol, ofList]
    norm_num

/-- C19, amended (in exact arithmetic): an integrated value is never the sentinel.  For a
visited voxel with prior tsdf at least `-1` and prior weight at least `0`, in a call with
positive margin, and with the arithmetic of the kernel exact: whenever the running-mean
branch is taken (camera depth positive, pixel in the frame, measured depth in `[0, 10]` not
rounding to `0`, `distance > -margin`) the tsdf stored is strictly above `-1`; hence a tsdf
of exactly `-1` after the call comes from a sentinel reset or from a prior value `-1` of a
voxel the call skipped.  With rounding the strict bound is lost: the mean can round to
exactly `-1`. -/
theorem C19_update_never_sentinel (sqrtf : Dtype → Dtype)
    (cam_info vox_info depth_data : Int → Dtype) (gridDim blockDim z y x : Nat)
    (hv : VoxelInLaunch vox_info gridDim blockDim z y x) (vol : Volume)
    (hm : 0 < vox_margin vox_info)
    (ht : -1 ≤ vol.vox_tsdf (vox_idx vox_info z y x))
    (hw : 0 ≤ vol.vox_weight (vox_idx vox_info z y x)) :
    ((0 < point_cam cam_info vox_info z y x 2
        ∧ (0 ≤ pixel_x cam_info vox_info z y x
            ∧ pixel_x cam_info vox_info z y x < frame_width cam_info)
        ∧ (0 ≤ pixel_y cam_info vox_info z y x
            ∧ pixel_y cam_info vox_info z y x < frame_height cam_info)
        ∧ (0 ≤ point_depth cam_info vox_info depth_data z y x
            ∧ point_depth cam_info vox_info depth_data z y x ≤ 10)
        ∧ roundf (point_depth cam_info vox_info depth_data z y x) ≠ 0
        ∧ (point_depth cam_info vox_info depth_data z y x - point_cam cam_info vox_info z y x 2)
            * sqrtf (1
              + (point_cam cam_info vox_info z y x 0 / point_cam cam_info vox_info z y x 2) ^ 2
              + (point_cam cam_info vox_info z y x 1 / point_cam cam_info vox_info z y x 2) ^ 2)
            > -vox_margin vox_info) →
      -1 < (IntegrateLaunch sqrtf cam_info vox_info depth_data gridDim blockDim vol).vox_tsdf
            (vox_idx vox_info z y x))
    ∧ ((IntegrateLaunch sqrtf cam_info vox_info depth_data gridDim blockDim vol).vox_tsdf
          (vox_idx vox_info z y x) = -1 →
        voxelOutcome sqrtf cam_info vox_info depth_data z y x = Outcome.sentinel
        ∨ (voxelOutcome sqrtf cam_info vox_info depth_data z y x = Outcome.skip
            ∧ vol.vox_tsdf (vox_idx vox_info z y x) = -1)) := by
  have hpos : 0 < vol.vox_weight (vox_idx vox_info z y x) + 1 := by linarith
  have mean_gt : ∀ s : Dtype, -1 < s →
      -1 < (vol.vox_tsdf (vox_idx vox_info z y x) * vol.vox_weight (vox_idx vox_info z y x) + s)
            / (vol.vox_weight (vox_idx vox_info z y x) + 1) := by
    intro s hs
    rw [lt_div_iff₀ hpos]
    nlinarith [mul_nonneg hw (by linarith : 0 ≤ vol.vox_tsdf (vox_idx vox_info z y x) + 1)]
  constructor
  · rintro ⟨hcam, hpx, hpy, hd, hr, hdist⟩
    have hupd := ((IntegrateVoxel_reached sqrtf cam_info vox_info depth_data z y x vol
      hcam hpx hpy hd).2 hr hdist).2
    rw [IntegrateLaunch_tsdf _ _ _ _ _ _ _ _ _ hv, hupd]
    apply mean_gt
    apply lt_min (by norm_num)
    rw [lt_div_iff₀ hm]
    have : point_dist sqrtf cam_info vox_info depth_data z y x > -vox_margin vox_info := hdist
    linarith
  · intro hneg
    have hcell := congrArg Prod.fst
      (IntegrateLaunch_cell sqrtf cam_info vox_info depth_data gridDim blockDim z y x hv vol)
    simp only at hcell
    rw [hneg] at hcell
    cases ho : voxelOutcome sqrtf cam_info vox_info depth_data z y x with
    | skip =>
      rw [ho] at hcell
      exact Or.inr ⟨rfl, hcell.symm⟩
    | sentinel => exact Or.inl rfl
    | update s =>
      exfalso
      rw [ho] at hcell
      simp only [applyOutcome, fuse] at hcell
      have hs : -1 < s := by
        unfold voxelOutcome at ho
        split_ifs at ho with h1 h2 h3 h4 h5
        injection ho with hs'
        rw [← hs']
        apply lt_min (by norm_num)
        rw [lt_div_iff₀ hm]
        linarith
      have := mean_gt s hs
      rw [← hcell] at this
      exact lt_irrefl _ this

/-- Witness for C19: in the one-voxel scene (margin 1) the cell `(-1, 0)` updated with
measured depth 1 ends with a tsdf above `-1`. -/
theorem C19_update_never_sentinel_witness :
    -1 < (IntegrateLaunch (fun _ => 1) exCam (exVox 1) (ofList [1]) 1 1
        (exVol (-1) 0)).vox_tsdf 0 := by
  have h := (C19_update_never_sentinel (fun _ => 1) exCam (exVox 1) (ofList [1]) 1 1 0 0 0
    (ex_inLaunch 1) (exVol (-1) 0) (by rw [ex_margin]; norm_num)
    (by simp [ex_vox_idx, exVol, ofList]) (by simp [ex_vox_idx, exVol, ofList])).1
  simp only [Nat.cast_zero, ex_vox_idx, ex_point_cam, ex_pixel, ex_frame, ex_point_depth,
    ex_margin] at h
  exact h ⟨by norm_num, by norm_num, by norm_num, by norm_num, by norm_num [roundf],
    by norm_num⟩

/-! ## The claims about the index, the pose and the safety of one iteration -/

/-- C18: voxel index flattening is a bijection.  For positive grid dimensions the index
`z * nx * ny + y * nx + x` of the coordinates `0 <= x < nx`, `0 <= y < ny`, `0 <= z < nz`
lies in `[0, nx * ny * nz)`, distinct coordinates have distinct indices, and every index
of `[0, nx * ny * nz)` is the index of some coordinate. -/
theorem C18_vox_idx_bijection (vox_info : Int → Dtype)
    (hnx : 0 < vox_size vox_info 0) (hny : 0 < vox_size vox_info 1)
    (_hnz : 0 < vox_size vox_info 2) :
    (∀ z y x : Int, 0 ≤ x → x < vox_size vox_info 0 → 0 ≤ y → y < vox_size vox_info 1 →
        0 ≤ z → z < vox_size vox_info 2 →
        0 ≤ vox_idx vox_info z y x
        ∧ vox_idx vox_info z y x
            < vox_size vox_info 0 * vox_size vox_info 1 * vox_size vox_info 2)
    ∧ (∀ z y x z' y' x' : Int,
        0 ≤ x → x < vox_size vox_info 0 → 0 ≤ y → y < vox_size vox_info 1 →
        0 ≤ x' → x' < vox_size vox_info 0 → 0 ≤ y' → y' < vox_size vox_info 1 →
        vox_idx vox_info z y x = vox_idx vox_info z' y' x' → z = z' ∧ y = y' ∧ x = x')
    ∧ (∀ k : Int, 0 ≤ k →
        k < vox_size vox_info 0 * vox_size vox_info 1 * vox_size vox_info 2 →
        ∃ z y x : Int, (0 ≤ x ∧ x < vox_size vox_info 0) ∧ (0 ≤ y ∧ y < vox_size vox_info 1)
          ∧ (0 ≤ z ∧ z < vox_size vox_info 2) ∧ vox_idx vox_info z y x = k) := by
  unfold vox_idx
  generalize vox_size vox_info 0 = nx at hnx
  generalize vox_size vox_info 1 = ny at hny
  generalize vox_size vox_info 2 = nz
  refine ⟨?_, ?_, ?_⟩
  · intro z y x hx0 hx hy0 hy hz0 hz
    have h1 : 0 ≤ z * ny + y := by positivity
    have h2 : z * ny + y + 1 ≤ nz * ny := by nlinarith
    have e : z * nx * ny + y * nx + x = (z * ny + y) * nx + x := by ring
    rw [e]
    constructor
    · positivity
    · have h3 : (z * ny + y + 1) * nx ≤ nz * ny * nx :=
        mul_le_mul_of_nonneg_right h2 (le_of_lt hnx)
      nlinarith
  · intro z y x z' y' x' hx0 hx hy0 hy hx0' hx' hy0' hy' h
    exact flat_index_inj nx ny z y x z' y' x' hx0 hx hx0' hx' hy0 hy hy0' hy' h
  · intro k hk0 hk
    refine ⟨k / nx / ny, k / nx % ny, k % nx,
      ⟨Int.emod_nonneg _ (ne_of_gt hnx), Int.emod_lt_of_pos _ hnx⟩,
      ⟨Int.emod_nonneg _ (ne_of_gt hny), Int.emod_lt_of_pos _ hny⟩,
      ⟨Int.ediv_nonneg (Int.ediv_nonneg hk0 (le_of_lt hnx)) (le_of_lt hny), ?_⟩, ?_⟩
    · apply Int.ediv_lt_of_lt_mul hny
      apply Int.ediv_lt_of_lt_mul hnx
      nlinarith
    · have e1 := Int.ediv_add_emod (k / nx) ny
      have e2 := Int.ediv_add_emod k nx
      calc k / nx / ny * nx * ny + k / nx % ny * nx + k % nx
          = nx * (ny * (k / nx / ny) + k / nx % ny) + k % nx := by ring
        _ = nx * (k / nx) + k % nx := by rw [e1]
        _ = k := e2

/-- Witness for C18: in the 4x4x1 grid the voxel `(0, 3, 3)` has index `15`, inside
`[0, 16)`. -/
theorem C18_vox_idx_bijection_witness :
    0 ≤ vox_idx sceneVox 0 3 3
    ∧ vox_idx sceneVox 0 3 3 < vox_size sceneVox 0 * vox_size sceneVox 1 * vox_size sceneVox 2 :=
  (C18_vox_idx_bijection sceneVox (by simp [vox_size, sceneVox, ofList, toInt])
    (by simp [vox_size, sceneVox, ofList, toInt])
    (by simp [vox_size, sceneVox, ofList, toInt])).1 0 3 3 (by norm_num)
    (by simp [vox_size, sceneVox, ofList, toInt]) (by norm_num)
    (by simp [vox_size, sceneVox, ofList, toInt]) (by norm_num)
    (by simp [vox_size, sceneVox, ofList, toInt])

/-- The index listed by `voxelDepthReads` is the one whose content the loop body uses as
`point_depth`, and nothing is listed exactly when the voxel is left at one of the first two
`continue` statements. -/
theorem voxelDepthReads_point_depth (cam_info vox_info depth_data : Int → Dtype)
    (z y x : Int) :
    (∀ i ∈ voxelDepthReads cam_info vox_info z y x,
        depth_data i = point_depth cam_info vox_info depth_data z y x)
    ∧ (voxelDepthReads cam_info vox_info z y x = [] ↔
        (point_cam cam_info vox_info z y x 2 ≤ 0
          ∨ pixel_x cam_info vox_info z y x < 0
          ∨ pixel_x cam_info vox_info z y x ≥ frame_width cam_info
          ∨ pixel_y cam_info vox_info z y x < 0
          ∨ pixel_y cam_info vox_info z y x ≥ frame_height cam_info)) := by
  unfold voxelDepthReads
  split_ifs with h1 h2
  · exact ⟨fun i hi => by simp at hi, by simp [h1]⟩
  · exact ⟨fun i hi => by simp at hi, by simp [h2]⟩
  · refine ⟨fun i hi => ?_, ?_⟩
    · rw [List.mem_singleton] at hi
      rw [hi]
      rfl
    · constructor
      · intro h; simp at h
      · rintro (h | h)
        · exact absurd h h1
        · exact absurd h h2

/-- C20: one iteration is free of out-of-range reads and zero divisors.  With a positive
margin and a non-negative stored weight, every index at which the iteration reads
`depth_data` (it reads only after the bounds check has passed) lies in
`[0, frame_width * frame_height)`, and every divisor of a division it performs (the camera
depth, `vox_margin`, `weight_new`, and the constant `2.5`) is non-zero. -/
theorem C20_no_bad_read_no_zero_divisor (sqrtf : Dtype → Dtype)
    (cam_info vox_info depth_data : Int → Dtype) (z y x : Int) (vol : Volume)
    (hm : 0 < vox_margin vox_info)
    (hw : 0 ≤ vol.vox_weight (vox_idx vox_info z y x)) :
    (∀ i ∈ voxelDepthReads cam_info vox_info z y x,
        0 ≤ i ∧ i < frame_width cam_info * frame_height cam_info)
    ∧ (∀ d ∈ voxelDivisors sqrtf cam_info vox_info depth_data z y x vol, d ≠ 0) := by
  constructor
  · intro i hi
    unfold voxelDepthReads at hi
    split_ifs at hi with h1 h2
    · simp at hi
    · simp at hi
    · rw [List.mem_singleton] at hi
      subst hi
      have hx0 : 0 ≤ pixel_x cam_info vox_info z y x := by
        by_contra hc; exact h2 (Or.inl (by omega))
      have hx1 : pixel_x cam_info vox_info z y x < frame_width cam_info := by
        by_contra hc; exact h2 (Or.inr (Or.inl (by omega)))
      have hy0 : 0 ≤ pixel_y cam_info vox_info z y x := by
        by_contra hc; exact h2 (Or.inr (Or.inr (Or.inl (by omega))))
      have hy1 : pixel_y cam_info vox_info z y x < frame_height cam_info := by
        by_contra hc; exact h2 (Or.inr (Or.inr (Or.inr (by omega))))
      generalize pixel_x cam_info vox_info z y x = px at hx0 hx1
      generalize pixel_y cam_info vox_info z y x = py at hy0 hy1
      generalize frame_width cam_info = fw at hx1
      generalize frame_height cam_info = fh at hy1
      have hfw : 0 ≤ fw := by omega
      constructor
      · nlinarith [mul_nonneg hy0 hfw]
      · have h3 : (py + 1) * fw ≤ fh * fw :=
          mul_le_mul_of_nonneg_right (by omega) hfw
        nlinarith
  · intro d hd
    unfold voxelDivisors at hd
    rw [List.mem_append] at hd
    rcases hd with hd | hd
    · cases hh : vol.vox_height with
      | none => rw [hh] at hd; simp at hd
      | some h =>
        rw [hh] at hd
        rw [List.mem_singleton] at hd
        rw [hd]
        norm_num
    · split_ifs at hd with h1 h2 h3 h4 h5 <;>
        simp only [List.mem_append, List.mem_cons, List.mem_singleton, List.not_mem_nil,
          or_false, or_self, false_or] at hd
      · have hpos : 0 < point_cam cam_info vox_info z y x 2 := not_le.1 h1
        rw [hd]; exact ne_of_gt hpos
      · have hpos : 0 < point_cam cam_info vox_info z y x 2 := not_le.1 h1
        rw [hd]; exact ne_of_gt hpos
      · have hpos : 0 < point_cam cam_info vox_info z y x 2 := not_le.1 h1
        rw [hd]; exact ne_of_gt hpos
      · have hpos : 0 < point_cam cam_info vox_info z y x 2 := not_le.1 h1
        rcases hd with hd | hd | hd | hd
        · rw [hd]; exact ne_of_gt hpos
        · rw [hd]; exact ne_of_gt hpos
        · rw [hd]; exact ne_of_gt hm
        · rw [hd]; exact ne_of_gt (by linarith)
      · have hpos : 0 < point_cam cam_info vox_info z y x 2 := not_le.1 h1
        rw [hd]; exact ne_of_gt hpos

/-- Witness for C20: in the one-voxel scene with measured depth 1 the only read is at index
`0` of the 1x1 frame, and the divisors `5/2, 1, 1, 1, 1, 1, 4` are non-zero. -/
theorem C20_no_bad_read_no_zero_divisor_witness :
    (∀ i ∈ voxelDepthReads exCam (exVox 1) 0 0 0,
        0 ≤ i ∧ i < frame_width exCam * frame_height exCam)
    ∧ (∀ d ∈ voxelDivisors (fun _ => 1) exCam (exVox 1) (ofList [1]) 0 0 0 (exVol (1 / 2) 3),
        d ≠ 0) :=
  C20_no_bad_read_no_zero_divisor (fun _ => 1) exCam (exVox 1) (ofList [1]) 0 0 0
    (exVol (1 / 2) 3) (by rw [ex_margin]; norm_num) (by simp [ex_vox_idx, exVol, ofList])

/-- The camera point of `Integrate` is the transposed rotation applied to the world point
minus the translation. -/
theorem point_cam_eq_mulVec (cam_info vox_info : Int → Dtype) (z y x : Int) :
    point_cam cam_info vox_info z y x
      = (poseRotation cam_info).transpose.mulVec
          (fun i => point_base vox_info z y x i - poseTranslation cam_info i) := by
  funext i
  fin_cases i <;>
    simp [point_cam, point_rel, poseRotation, poseTranslation, Matrix.mulVec,
      Matrix.dotProduct, Fin.sum_univ_three]

/-- C16: the world-to-camera transform is the inverse of the pose.  For every pose whose
rotation block `R` is orthogonal (`R^T R = I`) with translation column `t`, and the world
point `p` of every voxel of every grid (so every world point), the camera point `c`
computed by `Integrate` satisfies `R c + t = p`. -/
theorem C16_camera_transform_inverts_pose (cam_info vox_info : Int → Dtype) (z y x : Int)
    (hR : (poseRotation cam_info).transpose * poseRotation cam_info = 1) :
    (poseRotation cam_info).mulVec (point_cam cam_info vox_info z y x)
        + poseTranslation cam_info
      = point_base vox_info z y x := by
  have hR' : poseRotation cam_info * (poseRotation cam_info).transpose = 1 :=
    Matrix.mul_eq_one_comm.1 hR
  rw [point_cam_eq_mulVec, Matrix.mulVec_mulVec, hR', Matrix.one_mulVec]
  funext i
  simp

/-- Witness for C16: for the identity pose of the one-voxel scene the camera point of the
voxel at height 1 is mapped back to its world point. -/
theorem C16_camera_transform_inverts_pose_witness :
    (poseRotation exCam).mulVec (point_cam exCam (exVox 1) 0 0 0) + poseTranslation exCam
      = point_base (exVox 1) 0 0 0 :=
  C16_camera_transform_inverts_pose exCam (exVox 1) 0 0 0 (by
    ext i j
    fin_cases i <;> fin_cases j <;>
      simp [poseRotation, cam_pose, exCam, ofList, Matrix.mul_apply, Fin.sum_univ_three])

/-! ## The end-to-end scene -/

/-- A loop storing `v` at `base + j` for `j < n` fills exactly the cells from `base` up to
`base + n`. -/
theorem foldl_store_offset (v : Dtype) (base : Nat) (buf : Int → Dtype) (n : Nat) (k : Int) :
    (List.range n).foldl (fun dst (j : Nat) => store dst ((base + j : Nat) : Int) v) buf k
      = if (base : Int) ≤ k ∧ k < ((base + n : Nat) : Int) then v else buf k := by
  induction n with
  | zero =>
    have : ¬ ((base : Int) ≤ k ∧ k < ((base + 0 : Nat) : Int)) := by omega
    simp only [List.range_zero, List.foldl_nil, this, if_false]
  | succ n ih =>
    rw [List.range_succ, List.foldl_append, List.foldl_cons, List.foldl_nil]
    by_cases hk : k = ((base + n : Nat) : Int)
    · subst hk
      have : (base : Int) ≤ ((base + n : Nat) : Int)
          ∧ ((base + n : Nat) : Int) < ((base + (n + 1) : Nat) : Int) := by omega
      rw [store_same, if_pos this]
    · rw [store_other _ _ _ _ hk, ih]
      by_cases h1 : (base : Int) ≤ k ∧ k < ((base + n : Nat) : Int)
      · have h2 : (base : Int) ≤ k ∧ k < ((base + (n + 1) : Nat) : Int) := by omega
        rw [if_pos h1, if_pos h2]
      · have h2 : ¬ ((base : Int) ≤ k ∧ k < ((base + (n + 1) : Nat) : Int)) := by omega
        rw [if_neg h1, if_neg h2]

/-- A thread of `Kernel_set_value` whose index arithmetic does not wrap writes exactly the
chunk from `loops * t` up to `min N (loops * t + loops)` for its number
`t = 512 * blockIdx + threadIdx`. -/
theorem Kernel_set_value_cell (L N : Nat) (dst : Int → Dtype) (v : Dtype) (b t : Nat)
    (h1 : 512 * b + t < 2 ^ 64) (h2 : L * (512 * b + t) + L < 2 ^ 64) (k : Int) :
    Kernel_set_value L N dst v b t k
      = if ((L * (512 * b + t) : Nat) : Int) ≤ k
          ∧ k < ((min N (L * (512 * b + t) + L) : Nat) : Int) then v else dst k := by
  unfold Kernel_set_value
  simp only [CUDA_NUM_THREADS]
  rw [Nat.mod_eq_of_lt h1, Nat.mod_eq_of_lt (by omega : L * (512 * b + t) < 2 ^ 64),
    Nat.mod_eq_of_lt h2]
  generalize L * (512 * b + t) = base at h2
  by_cases hb : base ≥ N
  · rw [if_pos hb]
    have : ¬ ((base : Int) ≤ k ∧ k < ((min N (base + L) : Nat) : Int)) := by omega
    rw [if_neg this]
  · rw [if_neg hb, foldl_store_offset]
    have e : base + (min N (base + L) - base) = max base (min N (base + L)) := by omega
    by_cases hc : (base : Int) ≤ k ∧ k < ((min N (base + L) : Nat) : Int)
    · rw [if_pos hc, if_pos (by omega)]
    · rw [if_neg hc, if_neg (by omega)]

/-- In a run of steps each of which either stores `v` in cell `k` or leaves it, the cell
ends with `v` if some step stores and as it was if none does. -/
theorem foldl_fill {C : Type} (step : C → (Int → Dtype) → Int → Dtype) (v : Dtype) (k : Int)
    (W : C → Prop) (l : List C) (hW : ∀ c ∈ l, ∀ dst, W c → step c dst k = v)
    (hN : ∀ c ∈ l, ∀ dst, ¬ W c → step c dst k = dst k) (dst : Int → Dtype) :
    ((∃ c ∈ l, W c) → (l.foldl (fun d c => step c d) dst) k = v)
    ∧ ((∀ c ∈ l, ¬ W c) → (l.foldl (fun d c => step c d) dst) k = dst k) := by
  induction l generalizing dst with
  | nil => exact ⟨fun ⟨c, hc, _⟩ => (by cases hc), fun _ => rfl⟩
  | cons a l ih =>
    have ih' := ih (fun c hc => hW c (List.mem_cons_of_mem _ hc))
      (fun c hc => hN c (List.mem_cons_of_mem _ hc)) (step a dst)
    simp only [List.foldl_cons]
    constructor
    · rintro ⟨c, hc, hWc⟩
      by_cases hl : ∃ c ∈ l, W c
      · exact ih'.1 hl
      · have hnone : ∀ c ∈ l, ¬ W c := fun c' hc' hW' => hl ⟨c', hc', hW'⟩
        rw [ih'.2 hnone]
        rcases List.mem_cons.1 hc with rfl | hmem
        · exact hW _ (List.mem_cons_self _ _) dst hWc
        · exact absurd hWc (hnone c hmem)
    · intro hnone
      rw [ih'.2 (fun c hc => hnone c (List.mem_cons_of_mem _ hc))]
      exact hN a (List.mem_cons_self _ _) dst (hnone a (List.mem_cons_self _ _))

/-- The launch parameters of the bulk fill for a size whose block count fits an `int`. -/
theorem bulk_params (N : Nat) (hN : 1 ≤ N) (hrep : (N + 511) / 512 < 2 ^ 31) :
    1 ≤ min 2880 ((N + 511) / 512)
    ∧ CUDA_GET_BLOCKS N = ((min 2880 ((N + 511) / 512) : Nat) : Int)
    ∧ CUDA_GET_LOOPS N
        = (N + 512 * min 2880 ((N + 511) / 512) - 1) / (512 * min 2880 ((N + 511) / 512))
    ∧ N ≤ CUDA_GET_LOOPS N * (512 * min 2880 ((N + 511) / 512))
    ∧ CUDA_GET_LOOPS N * (512 * min 2880 ((N + 511) / 512))
        ≤ N + 512 * min 2880 ((N + 511) / 512) - 1
    ∧ 1 ≤ CUDA_GET_LOOPS N := by
  have hB1 : 1 ≤ min 2880 ((N + 511) / 512) := by omega
  have hblocks : CUDA_GET_BLOCKS N = ((min 2880 ((N + 511) / 512) : Nat) : Int) := by
    unfold CUDA_GET_BLOCKS sizeToInt MAX_NUM_BLOCKS CUDA_NUM_THREADS
    have e1 : (N + 512 - 1) % 2 ^ 64 / 512 = (N + 511) / 512 := by omega
    rw [e1]
    have e2 : (N + 511) / 512 % 2 ^ 32 = (N + 511) / 512 := by omega
    rw [e2, if_pos hrep]
    omega
  have hloops : CUDA_GET_LOOPS N
      = (N + 512 * min 2880 ((N + 511) / 512) - 1) / (512 * min 2880 ((N + 511) / 512)) := by
    unfold CUDA_GET_LOOPS
    simp only [hblocks]
    have e1 : intToSize (((min 2880 ((N + 511) / 512) : Nat) : Int) * ((CUDA_NUM_THREADS : Nat) : Int))
        = 512 * min 2880 ((N + 511) / 512) := by
      unfold intToSize CUDA_NUM_THREADS
      omega
    rw [e1]
    have e2 : (N + 512 * min 2880 ((N + 511) / 512) - 1) % 2 ^ 64
        = N + 512 * min 2880 ((N + 511) / 512) - 1 := by omega
    rw [e2]
  refine ⟨hB1, hblocks, hloops, ?_, ?_, ?_⟩
  · rw [hloops]
    have hT : 0 < 512 * min 2880 ((N + 511) / 512) := by omega
    generalize 512 * min 2880 ((N + 511) / 512) = T at hT ⊢
    have h1 := Nat.div_add_mod (N + T - 1) T
    have h2 := Nat.mod_lt (N + T - 1) hT
    have h3 : T * ((N + T - 1) / T) = (N + T - 1) / T * T := Nat.mul_comm _ _
    omega
  · rw [hloops]
    exact Nat.div_mul_le_self _ _
  · rw [hloops]
    have hT : 0 < 512 * min 2880 ((N + 511) / 512) := by omega
    generalize 512 * min 2880 ((N + 511) / 512) = T at hT ⊢
    exact (Nat.le_div_iff_mul_le hT).2 (by omega)

/-- C14: bulk fill coverage.  For every `N >= 1` whose `ceil(N / 512)` fits a 32-bit `int`,
with `blocks = min(2880, ceil(N / 512))` and `loops = CUDA_GET_LOOPS(N)`: the launch has
`blocks` blocks; thread number `512 * blockIdx + threadIdx` writes exactly the chunk from
`loops * t` up to `min(N, loops * t + loops)`; every index below `N` lies in the chunk of
exactly one thread number below `blocks * 512`; and after `GPU_set_value` every one of
the `N` elements holds the value while no other cell has been written. -/
theorem C14_bulk_fill_coverage (N : Nat) (hN : 1 ≤ N) (hrep : (N + 511) / 512 < 2 ^ 31)
    (GPUdst : Int → Dtype) (value : Dtype) :
    CUDA_GET_BLOCKS N = ((min 2880 ((N + 511) / 512) : Nat) : Int)
    ∧ (∀ (dst : Int → Dtype) (b t : Nat), b < min 2880 ((N + 511) / 512) → t < 512 →
        ∀ k : Int, Kernel_set_value (CUDA_GET_LOOPS N) N dst value b t k
          = if ((CUDA_GET_LOOPS N * (512 * b + t) : Nat) : Int) ≤ k
              ∧ k < ((min N (CUDA_GET_LOOPS N * (512 * b + t) + CUDA_GET_LOOPS N) : Nat) : Int)
            then value else dst k)
    ∧ (∀ i : Nat, i < N →
        ∃! t : Nat, t < min 2880 ((N + 511) / 512) * 512 ∧ CUDA_GET_LOOPS N * t ≤ i
          ∧ i < min N (CUDA_GET_LOOPS N * t + CUDA_GET_LOOPS N))
    ∧ (∀ k : Int, GPU_set_value N GPUdst value k
        = if 0 ≤ k ∧ k < (N : Int) then value else GPUdst k) := by
  obtain ⟨hB1, hblocks, -, hNle, hLT, hL1⟩ := bulk_params N hN hrep
  generalize hL : CUDA_GET_LOOPS N = L at *
  generalize hB : min 2880 ((N + 511) / 512) = B at *
  have hB2 : B ≤ 2880 := by omega
  have hN40 : N < 2 ^ 40 := by omega
  have hchunk : ∀ τ : Nat, τ < 512 * B → L * τ + L < 2 ^ 64 := by
    intro τ hτ
    have h1 : L * (τ + 1) ≤ L * (512 * B) := Nat.mul_le_mul_left L (by omega)
    have h2 : L * (τ + 1) = L * τ + L := by ring
    omega
  have hcell : ∀ (dst : Int → Dtype) (b t : Nat), b < B → t < 512 →
      ∀ k : Int, Kernel_set_value L N dst value b t k
        = if ((L * (512 * b + t) : Nat) : Int) ≤ k
            ∧ k < ((min N (L * (512 * b + t) + L) : Nat) : Int) then value else dst k := by
    intro dst b t hb ht k
    exact Kernel_set_value_cell L N dst value b t (by omega) (hchunk _ (by omega)) k
  have hcover : ∀ i : Nat, i < N →
      i / L < 512 * B ∧ L * (i / L) ≤ i ∧ i < L * (i / L) + L := by
    intro i hi
    refine ⟨Nat.div_lt_of_lt_mul (by omega), Nat.mul_div_le i L, ?_⟩
    have := Nat.lt_mul_div_succ i (by omega : 0 < L)
    have e : L * (i / L + 1) = L * (i / L) + L := by ring
    omega
  refine ⟨hblocks, hcell, ?_, ?_⟩
  · intro i hi
    obtain ⟨h1, h2, h3⟩ := hcover i hi
    refine ⟨i / L, ⟨by omega, h2, by omega⟩, ?_⟩
    rintro τ ⟨-, hlo, hhi⟩
    have hhi' : i < (τ + 1) * L := by
      have e : (τ + 1) * L = L * τ + L := by ring
      omega
    have hlo' : τ * L ≤ i := by rw [Nat.mul_comm]; exact hlo
    exact (Nat.div_eq_of_lt_le hlo' hhi').symm
  · intro k
    unfold GPU_set_value
    rw [hblocks, Int.toNat_ofNat, hL]
    simp only [CUDA_NUM_THREADS]
    have inner : ∀ (b : Nat), b ∈ List.range B → ∀ dst : Int → Dtype,
        ((∃ t ∈ List.range 512, ((L * (512 * b + t) : Nat) : Int) ≤ k
            ∧ k < ((min N (L * (512 * b + t) + L) : Nat) : Int)) →
          (List.range 512).foldl (fun d (t : Nat) => Kernel_set_value L N d value b t) dst k
            = value)
        ∧ ((∀ t ∈ List.range 512, ¬ (((L * (512 * b + t) : Nat) : Int) ≤ k
            ∧ k < ((min N (L * (512 * b + t) + L) : Nat) : Int))) →
          (List.range 512).foldl (fun d (t : Nat) => Kernel_set_value L N d value b t) dst k
            = dst k) := by
      intro b hb dst
      have hb' := List.mem_range.1 hb
      exact foldl_fill (fun (t : Nat) d => Kernel_set_value L N d value b t) value k
        (fun t => ((L * (512 * b + t) : Nat) : Int) ≤ k
          ∧ k < ((min N (L * (512 * b + t) + L) : Nat) : Int)) (List.range 512)
        (fun t ht d hW => (hcell d b t hb' (List.mem_range.1 ht) k).trans (if_pos hW))
        (fun t ht d hW => (hcell d b t hb' (List.mem_range.1 ht) k).trans (if_neg hW)) dst
    have outer := foldl_fill
      (fun (b : Nat) d => (List.range 512).foldl
        (fun d (t : Nat) => Kernel_set_value L N d value b t) d) value k
      (fun b => ∃ t ∈ List.range 512, ((L * (512 * b + t) : Nat) : Int) ≤ k
        ∧ k < ((min N (L * (512 * b + t) + L) : Nat) : Int)) (List.range B)
      (fun b hb d hW => (inner b hb d).1 hW)
      (fun b hb d hW => (inner b hb d).2 (fun t ht h => hW ⟨t, ht, h⟩)) GPUdst
    by_cases hk : 0 ≤ k ∧ k < (N : Int)
    · rw [if_pos hk]
      apply outer.1
      obtain ⟨h1, h2, h3⟩ := hcover k.toNat (by omega)
      refine ⟨k.toNat / L / 512, List.mem_range.2 (by omega), k.toNat / L % 512,
        List.mem_range.2 (by omega), ?_⟩
      have e : 512 * (k.toNat / L / 512) + k.toNat / L % 512 = k.toNat / L :=
        Nat.div_add_mod _ _
      rw [e]
      omega
    · rw [if_neg hk]
      apply outer.2
      rintro b - ⟨t, -, h1, h2⟩
      apply hk
      omega

/-- Witness for C14: a buffer of 5 elements is filled from index 0 to 4 and cell 5 is left. -/
theorem C14_bulk_fill_coverage_witness :
    GPU_set_value 5 (fun _ => 0) 9 4 = 9 ∧ GPU_set_value 5 (fun _ => 0) 9 5 = 0 := by
  have h := (C14_bulk_fill_coverage 5 (by decide) (by decide) (fun _ => 0) 9).2.2.2
  exact ⟨by rw [h 4]; norm_num, by rw [h 5]; norm_num⟩

end SuncgFusion
